import Mathlib

/-!
# elasticsql: the aggregation compiler (`select_agg_handler.go`)

A shallow embedding of the functions of `select_agg_handler.go` together with
theorems about them.

* Go's `map[string]interface{}` (`msi`) is an association list with distinct
  keys; `msi.set` is the map assignment `m[k] = v`.  The nil map and the empty
  map, both of `len` 0, are the empty list.
* The SQL syntax tree and its printer `sqlparser.String` belong to the external
  package `github.com/xwb1989/sqlparser`.  The tree is modelled by the node
  shapes the handler discriminates on; the printer is a parameter `str` of every
  function that calls it, so the theorems hold for every printer.
* A Go result pair `(msi, error)` is an `Except String msi`: every `return` of
  the file that carries an error carries the nil map.
-/

set_option autoImplicit false

/-! ## Library functions of package `strings` -/

namespace strings

/-- Function `strings.ToUpper` on ASCII text: the letters `a`..`z` become `A`..`Z`
and every other character is kept.  (Go also maps the lower-case letters outside
ASCII, which an unquoted SQL identifier cannot hold.) -/
def ToUpper (s : String) : String :=
  String.mk (s.data.map Char.toUpper)

/-- Call `strings.Replace(s, old, "", -1)` for a pattern `old` of one character:
every occurrence of that character is dropped. -/
def Remove (s : String) (old : Char) : String :=
  String.mk (s.data.filter (fun c => c != old))

end strings

/-! ## The syntax tree of package `sqlparser` -/

namespace sqlparser

/-- Type `sqlparser.ColName`: a column reference, `Qualifier` being `nil` when absent. -/
structure ColName where
  Name : String
  Qualifier : Option String
  deriving DecidableEq, Repr

mutual
/-- Type `sqlparser.Expr` (and `ValExpr`): the shapes told apart by the handler
(`ColName`, `FuncExpr`, `ComparisonExpr`) and three literal shapes that stand
for every other kind of expression. -/
inductive Expr where
  | colName (c : ColName)
  | funcExpr (f : FuncExpr)
  | comparisonExpr (Operator : String) (Left Right : Expr)
  | strVal (v : String)
  | numVal (v : String)
  | nullVal
/-- Type `sqlparser.FuncExpr`: `Name`, `Distinct`, `Exprs`. -/
inductive FuncExpr where
  | mk (Name : String) (Distinct : Bool) (Exprs : List SelectExpr)
/-- Type `sqlparser.SelectExpr`: `*StarExpr` or `*NonStarExpr`. -/
inductive SelectExpr where
  | starExpr (TableName : Option String)
  | nonStarExpr (Expr : Expr) (As : Option String)
end

/-- Field `Name` of a `FuncExpr`. -/
def FuncExpr.Name : FuncExpr → String
  | .mk n _ _ => n

/-- Field `Distinct` of a `FuncExpr`. -/
def FuncExpr.Distinct : FuncExpr → Bool
  | .mk _ d _ => d

/-- Field `Exprs` of a `FuncExpr`. -/
def FuncExpr.Exprs : FuncExpr → List SelectExpr
  | .mk _ _ e => e

/-- Type `sqlparser.SQLNode`: what `sqlparser.String` is called on in this file. -/
inductive SQLNode where
  | selectExprs (n : List SelectExpr)
  | selectExpr (n : SelectExpr)
  | expr (n : Expr)

/-- Type `sqlparser.GroupBy`. -/
abbrev GroupBy := List Expr

/-- Type `sqlparser.SelectExprs`. -/
abbrev SelectExprs := List SelectExpr

mutual
/-- The printer of an expression, after the `Format` methods of the package
for the shapes modelled here (no escaping of reserved words or of the contents
of string literals). -/
def Expr.Format : Expr → String
  | .colName c =>
    (match c.Qualifier with
     | some q => q ++ "."
     | none => "") ++ c.Name
  | .funcExpr f => FuncExpr.Format f
  | .comparisonExpr op l r => Expr.Format l ++ " " ++ op ++ " " ++ Expr.Format r
  | .strVal v => "'" ++ v ++ "'"
  | .numVal v => v
  | .nullVal => "null"
/-- The printer of a function call: `name(distinct args)`. -/
def FuncExpr.Format : FuncExpr → String
  | .mk n d es => n ++ "(" ++ (if d then "distinct " else "") ++ SelectExprs.Format es ++ ")"
/-- The printer of an argument list: the items separated by `", "`. -/
def SelectExprs.Format : List SelectExpr → String
  | [] => ""
  | [e] => SelectExpr.Format e
  | e :: e' :: es => SelectExpr.Format e ++ ", " ++ SelectExprs.Format (e' :: es)
/-- The printer of one item of a SELECT list. -/
def SelectExpr.Format : SelectExpr → String
  | .starExpr t =>
    (match t with
     | some q => q ++ "."
     | none => "") ++ "*"
  | .nonStarExpr e a =>
    Expr.Format e ++
      (match a with
       | some n => " as " ++ n
       | none => "")
end

/-- A concrete printer in the place of `sqlparser.String`, used to run the
handler on examples. -/
def sqlString : SQLNode → String
  | .selectExprs n => SelectExprs.Format n
  | .selectExpr n => SelectExpr.Format n
  | .expr n => Expr.Format n

end sqlparser

/-! ## Values of `map[string]interface{}` -/

namespace elasticsql

open sqlparser

/-- The dynamic values stored in an `msi`: strings, integers, nested `msi`
and slices `[]msi`. -/
inductive Value where
  | str (s : String)
  | num (n : Int)
  | obj (m : List (String × Value))
  | arr (l : List (List (String × Value)))

/-- Type `msi` stands for `map[string]interface{}`. -/
abbrev msi := List (String × Value)

/-- The map read `m[k]`. -/
def msi.get (m : msi) (k : String) : Option Value :=
  match m with
  | [] => none
  | (k', v) :: rest => if k' = k then some v else msi.get rest k

/-- The map assignment `m[k] = v`: overwrites the entry of `k` if there is one. -/
def msi.set (m : msi) (k : String) (v : Value) : msi :=
  match m with
  | [] => [(k, v)]
  | (k', v') :: rest => if k' = k then (k, v) :: rest else (k', v') :: msi.set rest k v

/-- The key set of a map, as a list. -/
def msi.keys (m : msi) : List String :=
  m.map Prod.fst

/-- Builtin `len(m)`. -/
def msi.len (m : msi) : Nat :=
  m.length

/-! ## The functions of `select_agg_handler.go` -/

/-- The body of the loop of `handleFuncInSelectAgg` for one call `v`. -/
def handleFuncInSelectAgg.step (str : SQLNode → String) (innerAggMap : msi) (v : FuncExpr) : msi :=
  let aggName := strings.ToUpper v.Name ++ "(" ++ str (.selectExprs v.Exprs) ++ ")"
  if v.Name = "count" then
    if str (.selectExprs v.Exprs) = "*" then
      innerAggMap.set aggName (.obj [("value_count", .obj [("field", .str "_index")])])
    else
      if v.Distinct then
        innerAggMap.set aggName
          (.obj [("cardinality", .obj [("field", .str (str (.selectExprs v.Exprs)))])])
      else
        innerAggMap.set aggName
          (.obj [("value_count", .obj [("field", .str (str (.selectExprs v.Exprs)))])])
  else
    innerAggMap.set aggName (.obj [(v.Name, .obj [("field", .str (str (.selectExprs v.Exprs)))])])

/-- Function `handleFuncInSelectAgg`. -/
def handleFuncInSelectAgg (str : SQLNode → String) (funcExprArr : List FuncExpr) : msi :=
  funcExprArr.foldl (handleFuncInSelectAgg.step str) []

/-- Function `handleGroupByColName`. -/
def handleGroupByColName (colName : ColName) (index : Int) (child : msi) : msi :=
  let innerMap : msi :=
    if index = 0 then
      msi.set [] "terms" (.obj [("field", .str colName.Name), ("size", .num 200)])
    else
      msi.set [] "terms" (.obj [("field", .str colName.Name), ("size", .num 0)])
  let innerMap : msi :=
    if child.len > 0 then innerMap.set "aggregations" (.obj child) else innerMap
  [(colName.Name, .obj innerMap)]

/-- The loop of `handleGroupByFuncExprDateHisto` over the remaining
sub-expressions, with the loop state `innerMap`, `field`, `interval`, `format`. -/
def handleGroupByFuncExprDateHisto.loop (str : SQLNode → String) :
    List SelectExpr → msi → String → String → String → Except String msi
  | [], innerMap, _, _, _ => .ok innerMap
  | expr :: rest, innerMap, field, interval, format =>
    match expr with
    | .nonStarExpr nonStarExprExpr _ =>
      match nonStarExprExpr with
      | .comparisonExpr _ Left Right =>
        match Left with
        | .colName left =>
          let rightStr := str (.expr Right)
          let rightStr := strings.Remove rightStr (Char.ofNat 39)
          let field := if left.Name = "field" then rightStr else field
          let interval := if left.Name = "interval" then rightStr else interval
          let format := if left.Name = "format" then rightStr else format
          let innerMap := innerMap.set "date_histogram"
            (.obj [("field", .str field), ("interval", .str interval), ("format", .str format)])
          handleGroupByFuncExprDateHisto.loop str rest innerMap field interval format
        | _ => .error "elaticsql: param error in date_histogram"
      | _ => .error "elasticsql: unsupported expression in date_histogram"
    | _ => .error "elasticsql: unsupported expression in date_histogram"

/-- Function `handleGroupByFuncExprDateHisto`. -/
def handleGroupByFuncExprDateHisto (str : SQLNode → String) (funcExpr : FuncExpr) :
    Except String msi :=
  handleGroupByFuncExprDateHisto.loop str funcExpr.Exprs [] "" "1h" "yyyy-MM-dd HH:mm:ss"

/-- The loop `for i := 1; i < len(funcExpr.Exprs)-1; i++` of
`handleGroupByFuncExprRange`, from the value `i` of the counter on. -/
def handleGroupByFuncExprRange.loop (str : SQLNode → String) (Exprs : List SelectExpr)
    (i : Nat) (rangeMapList : List msi) : List msi :=
  if h : i + 1 < Exprs.length then
    let valFrom := str (.selectExpr Exprs[i])
    let valTo := str (.selectExpr Exprs[i + 1])
    handleGroupByFuncExprRange.loop str Exprs (i + 1)
      (rangeMapList.set (i - 1) [("from", .str valFrom), ("to", .str valTo)])
  else
    rangeMapList
termination_by Exprs.length - i

/-- Function `handleGroupByFuncExprRange`. -/
def handleGroupByFuncExprRange (str : SQLNode → String) (funcExpr : FuncExpr) :
    Except String msi :=
  if h : funcExpr.Exprs.length < 3 then
    .error "elasticsql: length of function range params must be > 3"
  else
    let rangeMapList : List msi := List.replicate (funcExpr.Exprs.length - 2) []
    let rangeMapList := handleGroupByFuncExprRange.loop str funcExpr.Exprs 1 rangeMapList
    .ok (msi.set [] funcExpr.Name
      (.obj [("field", .str (str (.selectExpr (funcExpr.Exprs.get ⟨0, by omega⟩)))),
             ("ranges", .arr rangeMapList)]))

/-- Function `handleGroupByFuncExprDateRange`. -/
def handleGroupByFuncExprDateRange (_funcExpr : FuncExpr) : Except String msi :=
  .error "elasticsql: date range not supported yet"

/-- Function `handleGroupByFuncExpr`.  After the error check `innerMap` is never
nil, so the test `innerMap != nil` of the source holds there. -/
def handleGroupByFuncExpr (str : SQLNode → String) (funcExpr : FuncExpr) (child : msi) :
    Except String msi :=
  let dispatched : Except String msi :=
    if funcExpr.Name = "date_histogram" then handleGroupByFuncExprDateHisto str funcExpr
    else if funcExpr.Name = "range" then handleGroupByFuncExprRange str funcExpr
    else if funcExpr.Name = "date_range" then handleGroupByFuncExprDateRange funcExpr
    else .error ("elasticsql: unsupported group by functions" ++ str (.expr (.funcExpr funcExpr)))
  match dispatched with
  | .error err => .error err
  | .ok innerMap =>
    let innerMap := if child.len > 0 then innerMap.set "aggregations" (.obj child) else innerMap
    let stripedFuncExpr := str (.expr (.funcExpr funcExpr))
    let stripedFuncExpr := strings.Remove stripedFuncExpr (Char.ofNat 32)
    let stripedFuncExpr := strings.Remove stripedFuncExpr (Char.ofNat 39)
    .ok [(stripedFuncExpr, .obj innerMap)]

/-- The loop `for i := len(groupBy) - 1; i >= 0; i--` of `handleGroupByAgg`:
`n` is `i + 1`, the number of items still to visit. -/
def handleGroupByAgg.loop (str : SQLNode → String) (groupBy : GroupBy) :
    (n : Nat) → n ≤ groupBy.length → msi → Except String msi
  | 0, _, child => .ok child
  | i + 1, h, child =>
    match groupBy[i] with
    | .colName item =>
      handleGroupByAgg.loop str groupBy i (Nat.le_of_succ_le h)
        (handleGroupByColName item i child)
    | .funcExpr item =>
      match handleGroupByFuncExpr str item child with
      | .error err => .error err
      | .ok currentMap => handleGroupByAgg.loop str groupBy i (Nat.le_of_succ_le h) currentMap
    | _ => handleGroupByAgg.loop str groupBy i (Nat.le_of_succ_le h) child

/-- Function `handleGroupByAgg`. -/
def handleGroupByAgg (str : SQLNode → String) (groupBy : GroupBy) (innerMap : msi) :
    Except String msi :=
  handleGroupByAgg.loop str groupBy groupBy.length (Nat.le_refl _) innerMap

/-- Function `extractFuncAndColFromSelect`, the body of the loop for one
expression `v`: the state is the slice `funcArr`. -/
def extractFuncAndColFromSelect.step (funcArr : List FuncExpr) (v : SelectExpr) :
    List FuncExpr :=
  match v with
  | .nonStarExpr expr _ =>
    match expr with
    | .funcExpr funcExpr => funcArr ++ [funcExpr]
    | .colName _ => funcArr
    | _ => funcArr
  | _ => funcArr

/-- Function `extractFuncAndColFromSelect`: the three results are `funcArr`,
`colArr` (never appended to) and the error (always nil). -/
def extractFuncAndColFromSelect (sqlSelect : SelectExprs) :
    List FuncExpr × List ColName × Option String :=
  (sqlSelect.foldl extractFuncAndColFromSelect.step [], [], none)

/-- The fields of `sqlparser.Select` read by `buildAggs`. -/
structure Select where
  SelectExprs : SelectExprs
  GroupBy : GroupBy

/-! ## The Serializer: `json.Marshal` of package `encoding/json`

The Serializer is not under `src/`: `buildAggs` calls the library function
`json.Marshal`.  It is modelled from the spec, which asks for the canonical
encoding of the tree with a stable order of the mapping keys: a map is written
with its keys in increasing order, as the package documents; the encoding of a
string (quoting and escaping) is the parameter `enc`. -/

/-- Modelled from the spec: the Serializer (`json.Marshal`, missing from `src/`)
writes the keys of a mapping in a stable order; this inserts a field in a list of
fields sorted by key. -/
def json.insertField (f : String × String) : List (String × String) → List (String × String)
  | [] => [f]
  | g :: rest => if f.1 ≤ g.1 then f :: g :: rest else g :: json.insertField f rest

/-- Modelled from the spec: the Serializer (`json.Marshal`, missing from `src/`)
writes the keys of a mapping in a stable order; this sorts the fields of a map by
key. -/
def json.sortFields : List (String × String) → List (String × String)
  | [] => []
  | f :: rest => json.insertField f (json.sortFields rest)

/-- Modelled from the spec: the Serializer (`json.Marshal`, missing from `src/`)
writes a mapping as its fields `key:value` separated by commas. -/
def json.joinFields (enc : String → String) (fields : List (String × String)) : String :=
  String.intercalate "," (fields.map (fun f => enc f.1 ++ ":" ++ f.2))

mutual
/-- Modelled from the spec: the Serializer (`json.Marshal`, missing from `src/`)
renders a tree to its canonical encoding; this is the encoding of a value, a
mapping being written with its keys in increasing order at every depth. -/
def json.encode (enc : String → String) : Value → String
  | .str s => enc s
  | .num n => toString n
  | .obj m => "\x7b" ++ json.joinFields enc (json.sortFields (json.encodeFields enc m)) ++ "\x7d"
  | .arr l => "[" ++ String.intercalate "," (json.encodeMaps enc l) ++ "]"
/-- Modelled from the spec: the Serializer (`json.Marshal`, missing from `src/`);
the entries of a map with their values encoded, in the order of the list. -/
def json.encodeFields (enc : String → String) : List (String × Value) → List (String × String)
  | [] => []
  | (k, v) :: rest => (k, json.encode enc v) :: json.encodeFields enc rest
/-- Modelled from the spec: the Serializer (`json.Marshal`, missing from `src/`);
the encodings of the maps of a slice, in the order of the slice. -/
def json.encodeMaps (enc : String → String) : List (List (String × Value)) → List String
  | [] => []
  | m :: rest =>
    ("\x7b" ++ json.joinFields enc (json.sortFields (json.encodeFields enc m)) ++ "\x7d") ::
      json.encodeMaps enc rest
end

/-- Modelled from the spec: the Serializer, function `json.Marshal` of
`encoding/json` (missing from `src/`), on an `msi`. -/
def json.Marshal (enc : String → String) (m : msi) : String :=
  json.encode enc (.obj m)

/-- Function `buildAggs`: the pair of the returned string and error. -/
def buildAggs (str : SQLNode → String) (enc : String → String) (sel : Select) :
    String × Option String :=
  let funcExprArr := (extractFuncAndColFromSelect sel.SelectExprs).1
  let innerAggMap := handleFuncInSelectAgg str funcExprArr
  match handleGroupByAgg str sel.GroupBy innerAggMap with
  | .error err => ("", some err)
  | .ok aggMap => (json.Marshal enc aggMap, none)

/-- A string encoder for examples: the text between double quotes, right for
text without characters to escape. -/
def json.quote (s : String) : String :=
  "\"" ++ s ++ "\""

/-! ## Notions used to state the properties -/

/-- Follows the `aggregations` child `n` times from `t`: every mapping met must
have exactly one key, whose body holds a mapping under `aggregations`.  Returns
the keys met, outermost first, and the mapping reached. -/
def descend : Nat → msi → Option (List String × msi)
  | 0, t => some ([], t)
  | n + 1, t =>
    match t with
    | [(k, .obj body)] =>
      match msi.get body "aggregations" with
      | some (.obj child) =>
        match descend n child with
        | some (ks, m) => some (k :: ks, m)
        | none => none
      | _ => none
    | _ => none

/-- The key under which a GROUP BY item is compiled: the column name, or the
printed call without spaces and single quotes. -/
def bucketKey (str : SQLNode → String) : Expr → String
  | .colName c => c.Name
  | .funcExpr f =>
    strings.Remove (strings.Remove (str (.expr (.funcExpr f))) (Char.ofNat 32)) (Char.ofNat 39)
  | _ => ""

/-- A GROUP BY item that is a column reference, or a function call that
`handleGroupByFuncExpr` compiles without error. -/
def compilesItem (str : SQLNode → String) : Expr → Bool
  | .colName _ => true
  | .funcExpr f => (handleGroupByFuncExpr str f []).isOk
  | _ => false

/-- A sub-expression that is a comparison, whatever its operator. -/
def isComparison : SelectExpr → Bool
  | .nonStarExpr (.comparisonExpr _ _ _) _ => true
  | _ => false

/-- A comparison whose left side is a column reference, qualified or not. -/
def leftIsColName : SelectExpr → Bool
  | .nonStarExpr (.comparisonExpr _ (.colName _) _) _ => true
  | _ => false

/-- A sub-expression of the shape `a = b`: a comparison whose operator is `=`. -/
def isEqualityShaped : SelectExpr → Bool
  | .nonStarExpr (.comparisonExpr op _ _) _ => op = "="
  | _ => false

/-- The right-hand side (printed, single quotes dropped) of a sub-expression
`key <op> rhs`, if the sub-expression has that shape with that left name. -/
def rhsFor (str : SQLNode → String) (key : String) : SelectExpr → Option String
  | .nonStarExpr (.comparisonExpr _ (.colName c) r) _ =>
    if c.Name = key then some (strings.Remove (str (.expr r)) (Char.ofNat 39)) else none
  | _ => none

/-- The value of `key` given by a list of sub-expressions: the right-hand side of
the last one whose left name is `key`, or `dflt` when there is none. -/
def lastValue (str : SQLNode → String) (key dflt : String) (exprs : List SelectExpr) : String :=
  ((exprs.filterMap (rhsFor str key)).getLast?).getD dflt

/-- The error with which a GROUP BY item fails to compile, if it is a function
call that `handleGroupByFuncExpr` refuses. -/
def itemError (str : SQLNode → String) : Expr → Option String
  | .funcExpr f =>
    match handleGroupByFuncExpr str f [] with
    | .error err => some err
    | .ok _ => none
  | _ => none

/-- The error of the failing item with the largest index, if an item fails. -/
def lastFailure (str : SQLNode → String) (g : GroupBy) : Option String :=
  (g.filterMap (itemError str)).getLast?

/-- A SELECT expression that is a wildcard or a plain column. -/
def isWildcardOrColumn : SelectExpr → Bool
  | .starExpr _ => true
  | .nonStarExpr (.colName _) _ => true
  | _ => false

/-- The function call of a SELECT expression that is a non-wildcard expression
holding a function call. -/
def funcCallOf : SelectExpr → Option FuncExpr
  | .nonStarExpr (.funcExpr f) _ => some f
  | _ => none

/-- The metric key of an aggregate call: the upper-cased name followed by the
printed argument list in parentheses. -/
def metricKey (str : SQLNode → String) (v : FuncExpr) : String :=
  strings.ToUpper v.Name ++ "(" ++ str (.selectExprs v.Exprs) ++ ")"

/-- The metric body compiled from an aggregate call. -/
def metricBody (str : SQLNode → String) (v : FuncExpr) : Value :=
  if v.Name = "count" then
    if str (.selectExprs v.Exprs) = "*" then
      .obj [("value_count", .obj [("field", .str "_index")])]
    else if v.Distinct then
      .obj [("cardinality", .obj [("field", .str (str (.selectExprs v.Exprs)))])]
    else
      .obj [("value_count", .obj [("field", .str (str (.selectExprs v.Exprs)))])]
  else
    .obj [(v.Name, .obj [("field", .str (str (.selectExprs v.Exprs)))])]

/-- The bucket body of the variant a GROUP BY function call is dispatched to. -/
def dispatchedBody (str : SQLNode → String) (f : FuncExpr) : Except String msi :=
  if f.Name = "date_histogram" then handleGroupByFuncExprDateHisto str f
  else if f.Name = "range" then handleGroupByFuncExprRange str f
  else if f.Name = "date_range" then handleGroupByFuncExprDateRange f
  else .error ("elasticsql: unsupported group by functions" ++ str (.expr (.funcExpr f)))

/-- The `aggregations` child of a mapping with exactly one key. -/
def aggChild (t : msi) : Option msi :=
  match t with
  | [(_, .obj body)] =>
    match msi.get body "aggregations" with
    | some (.obj child) => some child
    | _ => none
  | _ => none

/-- The mapping reached from `t` by following the `aggregations` child `j` times. -/
def reach : Nat → msi → Option msi
  | 0, t => some t
  | j + 1, t =>
    match aggChild t with
    | some child => reach j child
    | none => none

/-- A GROUP BY item that compiles to a bucket: a column reference or a function
call. -/
def isBucketItem : Expr → Bool
  | .colName _ => true
  | .funcExpr _ => true
  | _ => false

/-- The number of items of a GROUP BY list that compile to a bucket. -/
def countBuckets (g : GroupBy) : Nat :=
  (g.filter isBucketItem).length

/-- The size of the `terms` bucket of a bucket body, if the body has one. -/
def termsSizeOf (body : msi) : Option Int :=
  match msi.get body "terms" with
  | some (.obj p) =>
    match msi.get p "size" with
    | some (.num n) => some n
    | _ => none
  | _ => none

/-- The bodies of the first `n` buckets met from `t` by following the
`aggregations` children, outermost first. -/
def spineBodies : Nat → msi → List msi
  | 0, _ => []
  | n + 1, t =>
    match t with
    | [(_, .obj body)] =>
      body ::
        (match msi.get body "aggregations" with
         | some (.obj child) => spineBodies n child
         | _ => [])
    | _ => []

/-- The invariant of the loop of `handleGroupByAgg` for the single-key property:
the running child `c` at the counter `n` is the chain of the buckets of the items
from `n` on, each a single-key mapping, ending in `M` when `M` is not empty. -/
def chainInv (str : SQLNode → String) (g : GroupBy) (M : msi) (n : Nat) (c : msi) : Prop :=
  (∀ (j : Nat) (x : Expr), g[n + j]? = some x →
    ∃ body : msi, reach j c = some [(bucketKey str x, .obj body)]) ∧
  n ≤ g.length ∧
  (M ≠ [] → c ≠ [] ∧ reach (g.length - n) c = some M)

/-- The invariant of the loop of `handleGroupByAgg` for the sizes: the running
child `c` at the counter `n` holds one bucket per bucket item from `n` on, and a
`terms` bucket in it has size 0, or size 200 at index 0 of the list. -/
def sizeInv (g : GroupBy) (n : Nat) (c : msi) : Prop :=
  (spineBodies (countBuckets (g.drop n)) c).length = countBuckets (g.drop n) ∧
  ∀ (j : Nat) (body : msi) (s : Int),
    (spineBodies (countBuckets (g.drop n)) c)[j]? = some body → termsSizeOf body = some s →
    s = 0 ∨ (s = 200 ∧ n = 0 ∧ j = 0 ∧ ∃ c₀, g[0]? = some (.colName c₀))

/-- The items of a list paired with their positions, counted from `start`. -/
def withIndex (start : Nat) : List Expr → List (Nat × Expr)
  | [] => []
  | e :: rest => (start, e) :: withIndex (start + 1) rest

/-- The compilation of one GROUP BY item at the position `i` over the child: a
column bucket, a function bucket, or the child itself for an item of another kind. -/
def compileItem (str : SQLNode → String) (i : Nat) (e : Expr) (child : msi) :
    Except String msi :=
  match e with
  | .colName c => .ok (handleGroupByColName c i child)
  | .funcExpr f => handleGroupByFuncExpr str f child
  | _ => .ok child

/-- The tree of a list of items given with their positions: the items after the
first are compiled over `M`, then the first over their tree, at its position. -/
def compileIndexed (str : SQLNode → String) : List (Nat × Expr) → msi → Except String msi
  | [], M => .ok M
  | (i, e) :: rest, M =>
    match compileIndexed str rest M with
    | .error err => .error err
    | .ok child => compileItem str i e child

/-- The bucket items of a list of items given with their positions. -/
def bucketItems (l : List (Nat × Expr)) : List (Nat × Expr) :=
  l.filter (fun p => isBucketItem p.2)

/-- The tree `w` holds the keys and values of the tree `v` with the entries of some
of its mappings in another order: the relation generated by the exchange of two
neighbouring entries of a mapping with distinct keys, at any depth. -/
inductive Reorder : Value → Value → Prop
  | refl (v : Value) : Reorder v v
  | trans {a b c : Value} : Reorder a b → Reorder b c → Reorder a c
  | swap (pre post : msi) (p q : String × Value) :
      (msi.keys (pre ++ p :: q :: post)).Nodup →
      Reorder (.obj (pre ++ p :: q :: post)) (.obj (pre ++ q :: p :: post))
  | field (pre post : msi) (k : String) {v w : Value} :
      Reorder v w → Reorder (.obj (pre ++ (k, v) :: post)) (.obj (pre ++ (k, w) :: post))
  | item (pre post : List msi) {m m' : msi} :
      Reorder (.obj m) (.obj m') →
      Reorder (.arr (pre ++ m :: post)) (.arr (pre ++ m' :: post))

/-! ## Example inputs -/

/-- A column reference without qualifier. -/
def col (name : String) : Expr := .colName ⟨name, none⟩

/-- An argument of a call: the expression without alias. -/
def arg (e : Expr) : SelectExpr := .nonStarExpr e none

/-- The call `count(*)`. -/
def countStar : FuncExpr := .mk "count" false [.starExpr none]

/-- The call `count(price)`. -/
def countPrice : FuncExpr := .mk "count" false [arg (col "price")]

/-- The call `count(distinct price)`. -/
def countDistinctPrice : FuncExpr := .mk "count" true [arg (col "price")]

/-- The call `avg(price)`. -/
def avgPrice : FuncExpr := .mk "avg" false [arg (col "price")]

/-- The call `range(price, 0, 10, 20)`. -/
def rangePrice : FuncExpr :=
  .mk "range" false [arg (col "price"), arg (.numVal "0"), arg (.numVal "10"), arg (.numVal "20")]

/-- The call `range(price, 0)`. -/
def rangePriceShort : FuncExpr := .mk "range" false [arg (col "price"), arg (.numVal "0")]

/-- The call `date_histogram()`, without sub-expressions. -/
def dateHistoEmpty : FuncExpr := .mk "date_histogram" false []

/-- The call `date_histogram(field = ts, interval = 1d)`. -/
def dateHistoTs : FuncExpr :=
  .mk "date_histogram" false
    [arg (.comparisonExpr "=" (col "field") (col "ts")),
     arg (.comparisonExpr "=" (col "interval") (.strVal "1d"))]

/-- The call `date_histogram(field < ts)`: a comparison that is not an equality. -/
def dateHistoLess : FuncExpr :=
  .mk "date_histogram" false [arg (.comparisonExpr "<" (col "field") (col "ts"))]

/-- The call `date_histogram(field = ts)`. -/
def dateHistoEqual : FuncExpr :=
  .mk "date_histogram" false [arg (.comparisonExpr "=" (col "field") (col "ts"))]

/-- The call `date_histogram(field = ts, foo = bar, interval = 1d)`: the second
sub-expression names none of the three keys. -/
def dateHistoForeign : FuncExpr :=
  .mk "date_histogram" false
    [arg (.comparisonExpr "=" (col "field") (col "ts")),
     arg (.comparisonExpr "=" (col "foo") (col "bar")),
     arg (.comparisonExpr "=" (col "interval") (.strVal "1d"))]

/-- The call `date_range(ts, 1, 2)`. -/
def dateRangeCall : FuncExpr :=
  .mk "date_range" false [arg (col "ts"), arg (.numVal "1"), arg (.numVal "2")]

/-- The call `RANGE(price, 0, 10)`, the name in upper case. -/
def rangeUpper : FuncExpr :=
  .mk "RANGE" false [arg (col "price"), arg (.numVal "0"), arg (.numVal "10")]

/-- The GROUP BY list `colA, colB`. -/
def groupByAB : GroupBy := [col "colA", col "colB"]

/-- The metric mapping of `avg(price)` alone. -/
def oneMetric : msi := [("AVG(price)", .obj [("avg", .obj [("field", .str "price")])])]

/-- The call `AVG(price)`, the name in upper case. -/
def avgPriceUpper : FuncExpr := .mk "AVG" false [arg (col "price")]

/-- The statement `SELECT *, a FROM t`: no aggregate call, no GROUP BY. -/
def selectPlain : Select := ⟨[.starExpr none, arg (col "a")], []⟩

/-- The statement `SELECT a, avg(price), *, count(*) FROM t GROUP BY colA, colB`. -/
def selectMixed : Select :=
  ⟨[arg (col "a"), arg (.funcExpr avgPrice), .starExpr none, arg (.funcExpr countStar)],
    groupByAB⟩

/-- The GROUP BY list `colA, date_range(ts, 1, 2), RANGE(price, 0, 10)`: the last
two items fail to compile. -/
def groupByFailing : GroupBy :=
  [col "colA", .funcExpr dateRangeCall, .funcExpr rangeUpper]

/-- The GROUP BY list `range(price, 0, 10, 20), colA`. -/
def groupByRangeFirst : GroupBy := [.funcExpr rangePrice, col "colA"]

/-- The GROUP BY list `1, 'x'`: two literals. -/
def groupByLiterals : GroupBy := [.numVal "1", .strVal "x"]

/-- The call `avg(distinct price)`. -/
def avgDistinctPrice : FuncExpr := .mk "avg" true [arg (col "price")]

/-- The call `count(distinct *)`. -/
def countDistinctStar : FuncExpr := .mk "count" true [.starExpr none]

/-- The GROUP BY list `1, 2, colA`. -/
def groupByLiteralsThenCol : GroupBy := [.numVal "1", .numVal "2", col "colA"]

/-- The GROUP BY list `colA, 1, colB`. -/
def groupByColLiteralCol : GroupBy := [col "colA", .numVal "1", col "colB"]

/-- The tree of `selectMixed` as `handleGroupByAgg` builds it. -/
def treeMixed : msi :=
  [("colA", .obj
    [("terms", .obj [("field", .str "colA"), ("size", .num 200)]),
     ("aggregations", .obj [("colB", .obj
        [("terms", .obj [("field", .str "colB"), ("size", .num 0)]),
         ("aggregations", .obj
            [("AVG(price)", .obj [("avg", .obj [("field", .str "price")])]),
             ("COUNT(*)", .obj [("value_count", .obj [("field", .str "_index")])])])])])])]

/-- The tree of `selectMixed` with the two metrics, and `terms` and `aggregations`
of the bucket `colA`, in the opposite order. -/
def treeMixedReordered : msi :=
  [("colA", .obj
    [("aggregations", .obj [("colB", .obj
        [("terms", .obj [("field", .str "colB"), ("size", .num 0)]),
         ("aggregations", .obj
            [("COUNT(*)", .obj [("value_count", .obj [("field", .str "_index")])]),
             ("AVG(price)", .obj [("avg", .obj [("field", .str "price")])])])])]),
     ("terms", .obj [("field", .str "colA"), ("size", .num 200)])])]

/-! ## Lemmas on maps -/

/-- Reading the key just assigned gives the assigned value. -/
theorem msi.get_set_self (m : msi) (k : String) (v : Value) : (m.set k v).get k = some v := by
  induction m with
  | nil => simp [msi.set, msi.get]
  | cons p rest ih =>
    obtain ⟨k', v'⟩ := p
    by_cases h : k' = k
    · simp [msi.set, msi.get, h]
    · simp [msi.set, msi.get, h, ih]

/-- An assignment leaves the other keys as they were. -/
theorem msi.get_set_ne (m : msi) (k k' : String) (v : Value) (h : k' ≠ k) :
    (m.set k v).get k' = m.get k' := by
  induction m with
  | nil => simp [msi.set, msi.get, Ne.symm h]
  | cons p rest ih =>
    obtain ⟨k₁, v₁⟩ := p
    by_cases h₁ : k₁ = k
    · subst h₁
      simp [msi.set, msi.get, Ne.symm h]
    · simp [msi.set, msi.get, h₁, ih]

/-- A map is not empty after an assignment. -/
theorem msi.set_ne_nil (m : msi) (k : String) (v : Value) : m.set k v ≠ [] := by
  cases m with
  | nil => simp [msi.set]
  | cons p rest =>
    obtain ⟨k', v'⟩ := p
    by_cases h : k' = k <;> simp [msi.set, h]

/-! ## The metric compiler -/

/-- C3: a single `count` call compiles to one entry whose body is `value_count`
over `_index` when the argument list prints as `*`, and otherwise, with `col` the
printed argument, `cardinality` over `col` when the distinct flag is set and
`value_count` over `col` when it is not. -/
theorem handleFuncInSelectAgg_count (str : SQLNode → String) (v : FuncExpr)
    (hname : v.Name = "count") :
    (str (.selectExprs v.Exprs) = "*" →
      handleFuncInSelectAgg str [v] =
        [(strings.ToUpper v.Name ++ "(" ++ str (.selectExprs v.Exprs) ++ ")",
          .obj [("value_count", .obj [("field", .str "_index")])])]) ∧
    (∀ col : String, str (.selectExprs v.Exprs) = col → col ≠ "*" → v.Distinct = false →
      handleFuncInSelectAgg str [v] =
        [(strings.ToUpper v.Name ++ "(" ++ col ++ ")",
          .obj [("value_count", .obj [("field", .str col)])])]) ∧
    (∀ col : String, str (.selectExprs v.Exprs) = col → col ≠ "*" → v.Distinct = true →
      handleFuncInSelectAgg str [v] =
        [(strings.ToUpper v.Name ++ "(" ++ col ++ ")",
          .obj [("cardinality", .obj [("field", .str col)])])]) := by
  refine ⟨?_, ?_, ?_⟩
  · intro h
    simp [handleFuncInSelectAgg, handleFuncInSelectAgg.step, hname, h, msi.set]
  · intro col h hne hd
    subst h
    simp [handleFuncInSelectAgg, handleFuncInSelectAgg.step, hname, hne, hd, msi.set]
  · intro col h hne hd
    subst h
    simp [handleFuncInSelectAgg, handleFuncInSelectAgg.step, hname, hne, hd, msi.set]

/-- C4: a call whose name is not `count` compiles to exactly one entry, keyed by
the upper-cased name followed by the printed argument list in parentheses, with
body `name -> (field -> printed argument list)`, the name taken verbatim. -/
theorem handleFuncInSelectAgg_default (str : SQLNode → String) (v : FuncExpr)
    (hname : v.Name ≠ "count") :
    handleFuncInSelectAgg str [v] =
      [(strings.ToUpper v.Name ++ "(" ++ str (.selectExprs v.Exprs) ++ ")",
        .obj [(v.Name, .obj [("field", .str (str (.selectExprs v.Exprs)))])])] := by
  simp [handleFuncInSelectAgg, handleFuncInSelectAgg.step, hname, msi.set]

/-- The calls `count(*)`, `count(price)` and `count(distinct price)` compile to
`value_count` over `_index`, `value_count` over `price` and `cardinality` over
`price`. -/
theorem handleFuncInSelectAgg_count_witness :
    countStar.Name = "count" ∧
    handleFuncInSelectAgg sqlString [countStar] =
      [("COUNT(*)", .obj [("value_count", .obj [("field", .str "_index")])])] ∧
    handleFuncInSelectAgg sqlString [countPrice] =
      [("COUNT(price)", .obj [("value_count", .obj [("field", .str "price")])])] ∧
    handleFuncInSelectAgg sqlString [countDistinctPrice] =
      [("COUNT(price)", .obj [("cardinality", .obj [("field", .str "price")])])] :=
  ⟨rfl, (handleFuncInSelectAgg_count sqlString countStar rfl).1 rfl,
    (handleFuncInSelectAgg_count sqlString countPrice rfl).2.1 "price" rfl (by decide) rfl,
    (handleFuncInSelectAgg_count sqlString countDistinctPrice rfl).2.2 "price" rfl
      (by decide) rfl⟩

/-- The call `avg(price)` compiles to `AVG(price)` with body `avg` over `price`. -/
theorem handleFuncInSelectAgg_default_witness :
    avgPrice.Name ≠ "count" ∧
    handleFuncInSelectAgg sqlString [avgPrice] =
      [("AVG(price)", .obj [("avg", .obj [("field", .str "price")])])] :=
  ⟨by decide, handleFuncInSelectAgg_default sqlString avgPrice (by decide)⟩

/-! ## The column bucket compiler -/

/-- C2: `handleGroupByColName c i ch` is a mapping with the single key `c.Name`;
its body holds `terms` with the field `c.Name` and the size 200 when `i = 0` and
0 otherwise, holds `aggregations = ch` exactly when `ch` is not empty, and has no
other key. -/
theorem handleGroupByColName_spec (c : ColName) (i : Int) (ch : msi) :
    ∃ body : msi,
      handleGroupByColName c i ch = [(c.Name, .obj body)] ∧
      msi.get body "terms" =
        some (.obj [("field", .str c.Name), ("size", .num (if i = 0 then 200 else 0))]) ∧
      (msi.get body "aggregations" = some (.obj ch) ↔ ch ≠ []) ∧
      (ch = [] → msi.get body "aggregations" = none) ∧
      (∀ k, k ∈ msi.keys body → k = "terms" ∨ k = "aggregations") ∧
      (msi.keys body).Nodup := by
  cases ch with
  | nil =>
    by_cases hi : i = 0 <;>
      simp [handleGroupByColName, msi.set, msi.get, msi.keys, msi.len, hi]
  | cons p rest =>
    by_cases hi : i = 0 <;>
      simp [handleGroupByColName, msi.set, msi.get, msi.keys, msi.len, hi] <;>
      (rintro k x (⟨rfl, -⟩ | ⟨rfl, -⟩) <;> simp)

/-! ## The function bucket compiler: dispatch -/

/-- C9: a call named `date_range` makes `handleGroupByFuncExpr` fail, whatever
its sub-expressions and the child. -/
theorem handleGroupByFuncExpr_date_range (str : SQLNode → String) (f : FuncExpr) (ch : msi)
    (hname : f.Name = "date_range") :
    handleGroupByFuncExpr str f ch = .error "elasticsql: date range not supported yet" := by
  simp [handleGroupByFuncExpr, handleGroupByFuncExprDateRange, hname]

/-- The call `date_range(ts, 1, 2)` is refused. -/
theorem handleGroupByFuncExpr_date_range_witness :
    dateRangeCall.Name = "date_range" ∧
    handleGroupByFuncExpr sqlString dateRangeCall [("x", .num 1)] =
      .error "elasticsql: date range not supported yet" :=
  ⟨rfl, handleGroupByFuncExpr_date_range sqlString dateRangeCall [("x", .num 1)] rfl⟩

/-- C10: a call whose name, as written, is none of `date_histogram`, `range`,
`date_range` makes `handleGroupByFuncExpr` fail, whatever its sub-expressions and
the child. -/
theorem handleGroupByFuncExpr_unknown (str : SQLNode → String) (f : FuncExpr) (ch : msi)
    (h1 : f.Name ≠ "date_histogram") (h2 : f.Name ≠ "range") (h3 : f.Name ≠ "date_range") :
    handleGroupByFuncExpr str f ch =
      .error ("elasticsql: unsupported group by functions" ++ str (.expr (.funcExpr f))) := by
  simp [handleGroupByFuncExpr, h1, h2, h3]

/-- The call `RANGE(price, 0, 10)` is refused: the name is compared as written. -/
theorem handleGroupByFuncExpr_unknown_witness :
    (rangeUpper.Name ≠ "date_histogram" ∧ rangeUpper.Name ≠ "range" ∧
      rangeUpper.Name ≠ "date_range") ∧
    handleGroupByFuncExpr sqlString rangeUpper [] =
      .error "elasticsql: unsupported group by functionsRANGE(price, 0, 10)" :=
  ⟨⟨by decide, by decide, by decide⟩,
    handleGroupByFuncExpr_unknown sqlString rangeUpper [] (by decide) (by decide) (by decide)⟩

/-! ## The function bucket compiler: `range` -/

/-- C6: `handleGroupByFuncExprRange` fails exactly when the call has fewer than
three sub-expressions; a call with exactly three succeeds and `range(price, 0)`
fails. -/
theorem handleGroupByFuncExprRange_error_iff :
    (∀ (str : SQLNode → String) (f : FuncExpr),
      (∃ err, handleGroupByFuncExprRange str f = .error err) ↔ f.Exprs.length < 3) ∧
    (∀ (str : SQLNode → String) (f : FuncExpr),
      (∃ m, handleGroupByFuncExprRange str f = .ok m) ↔ ¬ f.Exprs.length < 3) ∧
    (∀ (str : SQLNode → String) (n : String) (d : Bool) (e₀ e₁ e₂ : SelectExpr),
      ∃ m, handleGroupByFuncExprRange str (.mk n d [e₀, e₁, e₂]) = .ok m) ∧
    (∃ err, handleGroupByFuncExprRange sqlString rangePriceShort = .error err) := by
  have key : ∀ (str : SQLNode → String) (f : FuncExpr),
      ((∃ err, handleGroupByFuncExprRange str f = .error err) ↔ f.Exprs.length < 3) ∧
      ((∃ m, handleGroupByFuncExprRange str f = .ok m) ↔ ¬ f.Exprs.length < 3) := by
    intro str f
    by_cases h : f.Exprs.length < 3
    · simp [handleGroupByFuncExprRange, h]
    · simp [handleGroupByFuncExprRange, h]
  refine ⟨fun str f => (key str f).1, fun str f => (key str f).2, ?_, ?_⟩
  · intro str n d e₀ e₁ e₂
    exact ((key str (.mk n d [e₀, e₁, e₂])).2).2 (by simp [FuncExpr.Exprs])
  · exact ((key sqlString rangePriceShort).1).2 (by decide)

/-- The loop of `handleGroupByFuncExprRange` keeps the length of the slice. -/
theorem handleGroupByFuncExprRange.loop_length (str : SQLNode → String)
    (Exprs : List SelectExpr) :
    ∀ (n i : Nat) (l : List msi), Exprs.length - i = n →
      (handleGroupByFuncExprRange.loop str Exprs i l).length = l.length := by
  intro n
  induction n with
  | zero =>
    intro i l hn
    rw [handleGroupByFuncExprRange.loop]
    have : ¬ (i + 1 < Exprs.length) := by omega
    simp [this]
  | succ n ih =>
    intro i l hn
    rw [handleGroupByFuncExprRange.loop]
    split
    · simp only []
      rw [ih (i + 1) _ (by omega)]
      simp
    · rfl

/-- After the loop of `handleGroupByFuncExprRange` started at `i ≥ 1`, the slot `k`
holds the pair of the sub-expressions `k + 1` and `k + 2` when `i ≤ k + 1`, and is
left as it was otherwise. -/
theorem handleGroupByFuncExprRange.loop_getElem? (str : SQLNode → String)
    (Exprs : List SelectExpr) :
    ∀ (n i : Nat) (l : List msi), Exprs.length - i = n → 1 ≤ i → ∀ k : Nat,
      (handleGroupByFuncExprRange.loop str Exprs i l)[k]? =
        if h : i ≤ k + 1 ∧ k + 2 < Exprs.length ∧ k < l.length then
          some [("from", .str (str (.selectExpr (Exprs.get ⟨k + 1, by omega⟩)))),
                ("to", .str (str (.selectExpr (Exprs.get ⟨k + 2, by omega⟩))))]
        else l[k]? := by
  intro n
  induction n with
  | zero =>
    intro i l hn hi k
    rw [handleGroupByFuncExprRange.loop]
    have h1 : ¬ (i + 1 < Exprs.length) := by omega
    have h2 : ¬ (i ≤ k + 1 ∧ k + 2 < Exprs.length ∧ k < l.length) := by omega
    simp [h1, h2]
  | succ n ih =>
    intro i l hn hi k
    rw [handleGroupByFuncExprRange.loop]
    split
    · rename_i hlt
      simp only []
      rw [ih (i + 1) _ (by omega) (by omega) k]
      by_cases hk : k + 1 = i
      · subst hk
        by_cases hkl : k < l.length
        · have h1 : ¬ (k + 1 + 1 ≤ k + 1 ∧ k + 2 < Exprs.length ∧
              k < (l.set (k + 1 - 1) [("from", .str (str (.selectExpr Exprs[k + 1]))),
                ("to", .str (str (.selectExpr Exprs[k + 1 + 1])))]).length) := by omega
          have h2 : k + 1 ≤ k + 1 ∧ k + 2 < Exprs.length ∧ k < l.length := by omega
          rw [dif_neg h1, dif_pos h2]
          simp [List.getElem?_set, hkl]
        · have h1 : ¬ (k + 1 + 1 ≤ k + 1 ∧ k + 2 < Exprs.length ∧
              k < (l.set (k + 1 - 1) [("from", .str (str (.selectExpr Exprs[k + 1]))),
                ("to", .str (str (.selectExpr Exprs[k + 1 + 1])))]).length) := by omega
          have h2 : ¬ (k + 1 ≤ k + 1 ∧ k + 2 < Exprs.length ∧ k < l.length) := by omega
          rw [dif_neg h1, dif_neg h2]
          have hle : l.length ≤ k := by omega
          simp [List.getElem?_set, hkl, hle]
      · by_cases hc : i ≤ k + 1 ∧ k + 2 < Exprs.length ∧ k < l.length
        · have h1 : i + 1 ≤ k + 1 ∧ k + 2 < Exprs.length ∧
              k < (l.set (i - 1) [("from", .str (str (.selectExpr Exprs[i]))),
                ("to", .str (str (.selectExpr Exprs[i + 1])))]).length := by
            simp only [List.length_set]; omega
          rw [dif_pos h1, dif_pos hc]
        · have h1 : ¬ (i + 1 ≤ k + 1 ∧ k + 2 < Exprs.length ∧
              k < (l.set (i - 1) [("from", .str (str (.selectExpr Exprs[i]))),
                ("to", .str (str (.selectExpr Exprs[i + 1])))]).length) := by
            simp only [List.length_set]; omega
          rw [dif_neg h1, dif_neg hc]
          have hne : i - 1 ≠ k := by omega
          simp [List.getElem?_set, hne]
    · rename_i hlt
      have h2 : ¬ (i ≤ k + 1 ∧ k + 2 < Exprs.length ∧ k < l.length) := by omega
      rw [dif_neg h2]

/-- C5: a `range` call with `N ≥ 3` sub-expressions compiles to a body whose only
key is `range`, with the field the printed sub-expression 0 and a `ranges` list of
`N - 2` entries, entry `k` being `from` = sub-expression `k + 1` and `to` =
sub-expression `k + 2`; the `to` of an entry is the `from` of the next. -/
theorem handleGroupByFuncExprRange_spec (str : SQLNode → String) (f : FuncExpr)
    (hname : f.Name = "range") (hN : 3 ≤ f.Exprs.length) :
    ∃ ranges : List msi,
      handleGroupByFuncExprRange str f =
        .ok [("range", .obj [("field", .str (str (.selectExpr (f.Exprs.get ⟨0, by omega⟩)))),
                             ("ranges", .arr ranges)])] ∧
      ranges.length = f.Exprs.length - 2 ∧
      (∀ (k : Nat) (hk : k + 2 < f.Exprs.length),
        ranges[k]? =
          some [("from", .str (str (.selectExpr (f.Exprs.get ⟨k + 1, by omega⟩)))),
                ("to", .str (str (.selectExpr (f.Exprs.get ⟨k + 2, hk⟩))))]) ∧
      (∀ (k : Nat) (a b : msi), ranges[k]? = some a → ranges[k + 1]? = some b →
        msi.get a "to" = msi.get b "from") := by
  have hlen := handleGroupByFuncExprRange.loop_length str f.Exprs (f.Exprs.length - 1) 1
    (List.replicate (f.Exprs.length - 2) []) rfl
  have hget := handleGroupByFuncExprRange.loop_getElem? str f.Exprs (f.Exprs.length - 1) 1
    (List.replicate (f.Exprs.length - 2) []) rfl (Nat.le_refl 1)
  have hent : ∀ (k : Nat) (hk : k + 2 < f.Exprs.length),
      (handleGroupByFuncExprRange.loop str f.Exprs 1
        (List.replicate (f.Exprs.length - 2) []))[k]? =
        some [("from", .str (str (.selectExpr (f.Exprs.get ⟨k + 1, by omega⟩)))),
              ("to", .str (str (.selectExpr (f.Exprs.get ⟨k + 2, hk⟩))))] := by
    intro k hk
    rw [hget k]
    have hc : 1 ≤ k + 1 ∧ k + 2 < f.Exprs.length ∧
        k < (List.replicate (f.Exprs.length - 2) ([] : msi)).length := by
      simp only [List.length_replicate]; omega
    rw [dif_pos hc]
  refine ⟨handleGroupByFuncExprRange.loop str f.Exprs 1
    (List.replicate (f.Exprs.length - 2) []), ?_, ?_, hent, ?_⟩
  · have h3 : ¬ f.Exprs.length < 3 := by omega
    simp [handleGroupByFuncExprRange, h3, hname, msi.set]
  · rw [hlen]; simp
  · intro k a b ha hb
    have hk1 : k + 1 < f.Exprs.length - 2 := by
      have := (List.getElem?_eq_some.1 hb).1
      rw [hlen] at this
      simpa using this
    rw [hent k (by omega)] at ha
    rw [hent (k + 1) (by omega)] at hb
    cases ha
    cases hb
    simp [msi.get]

/-- The call `range(price, 0, 10, 20)` compiles to a `range` bucket over `price`
with the entries `0..10` and `10..20`. -/
theorem handleGroupByFuncExprRange_spec_witness :
    rangePrice.Name = "range" ∧ 3 ≤ rangePrice.Exprs.length ∧
    handleGroupByFuncExprRange sqlString rangePrice =
      .ok [("range", .obj [("field", .str "price"),
        ("ranges", .arr [[("from", .str "0"), ("to", .str "10")],
                         [("from", .str "10"), ("to", .str "20")]])])] := by
  refine ⟨rfl, by decide, ?_⟩
  obtain ⟨ranges, h, hlen, hk, -⟩ :=
    handleGroupByFuncExprRange_spec sqlString rangePrice rfl (by decide)
  have h0 := hk 0 (by decide)
  have h1 := hk 1 (by decide)
  match ranges, hlen, h0, h1, h with
  | [a, b], _, h0, h1, h =>
    simp only [List.getElem?_cons_zero, List.getElem?_cons_succ, Option.some.injEq] at h0 h1
    subst h0 h1
    exact h

/-! ## The tree builder -/

/-- With a non-empty child, the column bucket holds the child under `aggregations`. -/
theorem handleGroupByColName_child (c : ColName) (i : Int) (ch : msi) (hch : ch ≠ []) :
    ∃ body : msi, handleGroupByColName c i ch = [(c.Name, .obj body)] ∧
      msi.get body "aggregations" = some (.obj ch) := by
  have hlen : ch.len > 0 := by
    cases ch with
    | nil => exact absurd rfl hch
    | cons p rest => simp [msi.len]
  by_cases hi : i = 0
  · exact ⟨_, by simp only [handleGroupByColName, hi, hlen, if_true]; rfl,
      msi.get_set_self _ _ _⟩
  · exact ⟨_, by simp only [handleGroupByColName, hi, hlen, if_true, if_false]; rfl,
      msi.get_set_self _ _ _⟩

/-- A call that compiles with the empty child compiles with every non-empty child,
to the single key `bucketKey` whose body holds the child under `aggregations`. -/
theorem handleGroupByFuncExpr_child (str : SQLNode → String) (f : FuncExpr) (ch : msi)
    (hch : ch ≠ []) (hok : (handleGroupByFuncExpr str f []).isOk = true) :
    ∃ body : msi,
      handleGroupByFuncExpr str f ch = .ok [(bucketKey str (.funcExpr f), .obj body)] ∧
      msi.get body "aggregations" = some (.obj ch) := by
  have hlen : ch.len > 0 := by
    cases ch with
    | nil => exact absurd rfl hch
    | cons p rest => simp [msi.len]
  unfold handleGroupByFuncExpr at hok ⊢
  simp only [] at hok ⊢
  generalize (if f.Name = "date_histogram" then handleGroupByFuncExprDateHisto str f
    else if f.Name = "range" then handleGroupByFuncExprRange str f
    else if f.Name = "date_range" then handleGroupByFuncExprDateRange f
    else Except.error ("elasticsql: unsupported group by functions" ++
      str (.expr (.funcExpr f)))) = d at hok ⊢
  cases d with
  | error e => simp [Except.isOk, Except.toBool] at hok
  | ok innerMap =>
    refine ⟨msi.set innerMap "aggregations" (.obj ch), ?_, msi.get_set_self _ _ _⟩
    simp [hlen, bucketKey]

/-- One step of `descend` through a single-key mapping. -/
theorem descend_succ (n : Nat) (k : String) (body child : msi) (ks : List String) (m : msi)
    (hbody : msi.get body "aggregations" = some (.obj child))
    (hrest : descend n child = some (ks, m)) :
    descend (n + 1) [(k, .obj body)] = some (k :: ks, m) := by
  simp [descend, hbody, hrest]

/-- The invariant of the loop of `handleGroupByAgg`: when the running child is the
tree of the items from `n` on, the loop ends with the tree of all the items. -/
theorem handleGroupByAgg.loop_nesting (str : SQLNode → String) (g : GroupBy) (M : msi)
    (hg : ∀ e ∈ g, compilesItem str e = true) :
    ∀ (n : Nat) (h : n ≤ g.length) (child : msi), child ≠ [] →
      descend (g.length - n) child = some ((g.drop n).map (bucketKey str), M) →
      ∃ t, handleGroupByAgg.loop str g n h child = .ok t ∧
        descend g.length t = some (g.map (bucketKey str), M) := by
  intro n
  induction n with
  | zero =>
    intro h child _ hd
    exact ⟨child, rfl, by simpa using hd⟩
  | succ i ih =>
    intro h child hne hd
    have hi : i < g.length := h
    have hdrop : g.drop i = g[i] :: g.drop (i + 1) := List.drop_eq_getElem_cons hi
    have hsub : g.length - i = (g.length - (i + 1)) + 1 := by omega
    have hmem : compilesItem str g[i] = true := hg _ (List.getElem_mem hi)
    rw [handleGroupByAgg.loop]
    split
    · rename_i item heq
      obtain ⟨body, hb, hagg⟩ := handleGroupByColName_child item i child hne
      apply ih (Nat.le_of_succ_le h)
      · rw [hb]; simp
      · rw [hb, hsub, hdrop, heq]
        exact descend_succ _ _ _ _ _ _ hagg hd
    · rename_i item heq
      rw [heq] at hmem
      obtain ⟨body, hb, hagg⟩ := handleGroupByFuncExpr_child str item child hne hmem
      rw [hb]
      apply ih (Nat.le_of_succ_le h)
      · simp
      · rw [hsub, hdrop, heq]
        exact descend_succ _ _ _ _ _ _ hagg hd
    · rename_i hc hf
      exfalso
      cases hgi : g[i] with
      | colName c => exact hc c hgi
      | funcExpr f => exact hf f hgi
      | comparisonExpr op l r => rw [hgi] at hmem; simp [compilesItem] at hmem
      | strVal v => rw [hgi] at hmem; simp [compilesItem] at hmem
      | numVal v => rw [hgi] at hmem; simp [compilesItem] at hmem
      | nullVal => rw [hgi] at hmem; simp [compilesItem] at hmem

/-- C1: for a GROUP BY list `g` of column references and compiling function calls
and a non-empty metric mapping `M`, `handleGroupByAgg g M` succeeds with a tree in
which following the `aggregations` child from the root meets the keys of
`g[0], ..., g[n-1]` in that order, one single-key mapping per item, and then
reaches `M`; for the empty list the tree is `M`. -/
theorem handleGroupByAgg_nesting (str : SQLNode → String) (g : GroupBy) (M : msi)
    (hM : M ≠ []) (hg : ∀ e ∈ g, compilesItem str e = true) :
    ∃ t, handleGroupByAgg str g M = .ok t ∧
      descend g.length t = some (g.map (bucketKey str), M) ∧
      (g = [] → t = M) := by
  obtain ⟨t, ht, hd⟩ := handleGroupByAgg.loop_nesting str g M hg g.length (Nat.le_refl _) M hM
    (by simp [descend])
  refine ⟨t, ht, hd, ?_⟩
  intro hnil
  subst hnil
  simpa [descend] using hd

/-- The list `colA, colB` with one metric compiles to `colA` (size 200) holding
`colB` (size 0) holding the metric. -/
theorem handleGroupByAgg_nesting_witness :
    oneMetric ≠ [] ∧ (∀ e ∈ groupByAB, compilesItem sqlString e = true) ∧
    (∃ t, handleGroupByAgg sqlString groupByAB oneMetric = .ok t ∧
      descend 2 t = some (["colA", "colB"], oneMetric)) ∧
    handleGroupByAgg sqlString groupByAB oneMetric =
      .ok [("colA", .obj
        [("terms", .obj [("field", .str "colA"), ("size", .num 200)]),
         ("aggregations", .obj [("colB", .obj
            [("terms", .obj [("field", .str "colB"), ("size", .num 0)]),
             ("aggregations", .obj oneMetric)])])])] := by
  have hM : oneMetric ≠ [] := by simp [oneMetric]
  have hg : ∀ e ∈ groupByAB, compilesItem sqlString e = true := by
    simp [groupByAB, col, compilesItem]
  obtain ⟨t, ht, hd, -⟩ := handleGroupByAgg_nesting sqlString groupByAB oneMetric hM hg
  exact ⟨hM, hg, ⟨t, ht, hd⟩, rfl⟩

/-! ## The function bucket compiler: `date_histogram` -/

/-- A second assignment to a key overwrites the first. -/
theorem msi.set_set (m : msi) (k : String) (v w : Value) :
    msi.set (msi.set m k v) k w = msi.set m k w := by
  induction m with
  | nil => simp [msi.set]
  | cons p rest ih =>
    obtain ⟨k', v'⟩ := p
    by_cases h : k' = k
    · simp [msi.set, h]
    · simp [msi.set, h, ih]

/-- Without sub-expressions the value of a key is its default. -/
theorem lastValue_nil (str : SQLNode → String) (key dflt : String) :
    lastValue str key dflt [] = dflt := by
  simp [lastValue]

/-- The first sub-expression acts on the default of the remaining ones. -/
theorem lastValue_cons (str : SQLNode → String) (key dflt : String) (e : SelectExpr)
    (rest : List SelectExpr) :
    lastValue str key dflt (e :: rest) =
      lastValue str key ((rhsFor str key e).getD dflt) rest := by
  unfold lastValue
  rw [List.filterMap_cons]
  cases h : rhsFor str key e with
  | none => simp
  | some v =>
    simp only [List.getLast?_cons, Option.getD_some]

/-- The comparison `left <op> right` sets the key named by `left`. -/
theorem rhsFor_comparison (str : SQLNode → String) (key dflt op : String) (left : ColName)
    (right : Expr) (a : Option String) :
    (rhsFor str key (.nonStarExpr (.comparisonExpr op (.colName left) right) a)).getD dflt =
      if left.Name = key then strings.Remove (str (.expr right)) (Char.ofNat 39) else dflt := by
  by_cases h : left.Name = key <;> simp [rhsFor, h]

/-- The loop of `handleGroupByFuncExprDateHisto` on sub-expressions that are all
comparisons with a column reference on the left. -/
theorem handleGroupByFuncExprDateHisto.loop_ok (str : SQLNode → String) :
    ∀ (exprs : List SelectExpr) (innerMap : msi) (field interval format : String),
      (∀ e ∈ exprs, leftIsColName e = true) →
      handleGroupByFuncExprDateHisto.loop str exprs innerMap field interval format =
        .ok (if exprs.isEmpty then innerMap else
          msi.set innerMap "date_histogram"
            (.obj [("field", .str (lastValue str "field" field exprs)),
                   ("interval", .str (lastValue str "interval" interval exprs)),
                   ("format", .str (lastValue str "format" format exprs))])) := by
  intro exprs
  induction exprs with
  | nil => intro innerMap field interval format _; simp [handleGroupByFuncExprDateHisto.loop]
  | cons e rest ih =>
    intro innerMap field interval format hall
    have he : leftIsColName e = true := hall e (List.mem_cons_self _ _)
    have hrest : ∀ x ∈ rest, leftIsColName x = true :=
      fun x hx => hall x (List.mem_cons_of_mem _ hx)
    match e, he with
    | .nonStarExpr (.comparisonExpr op (.colName left) right) a, _ =>
      simp only [handleGroupByFuncExprDateHisto.loop]
      rw [ih _ _ _ _ hrest]
      simp only [lastValue_cons, rhsFor_comparison]
      by_cases hr : rest = []
      · subst hr
        simp [lastValue_nil]
      · simp [hr, msi.set_set]

/-- The loop of `handleGroupByFuncExprDateHisto` fails as soon as one
sub-expression is not a comparison with a column reference on the left. -/
theorem handleGroupByFuncExprDateHisto.loop_error (str : SQLNode → String) :
    ∀ (exprs : List SelectExpr) (innerMap : msi) (field interval format : String),
      (∃ e ∈ exprs, leftIsColName e = false) →
      ∃ err, handleGroupByFuncExprDateHisto.loop str exprs innerMap field interval format =
        .error err := by
  intro exprs
  induction exprs with
  | nil => intro _ _ _ _ h; simp at h
  | cons e rest ih =>
    intro innerMap field interval format h
    by_cases he : leftIsColName e = true
    · have hrest : ∃ x ∈ rest, leftIsColName x = false := by
        obtain ⟨x, hx, hxf⟩ := h
        rcases List.mem_cons.1 hx with rfl | hx
        · rw [he] at hxf; exact absurd hxf (by simp)
        · exact ⟨x, hx, hxf⟩
      match e, he with
      | .nonStarExpr (.comparisonExpr op (.colName left) right) a, _ =>
        simp only [handleGroupByFuncExprDateHisto.loop]
        exact ih _ _ _ _ hrest
    · match e, he with
      | .starExpr t, _ => exact ⟨_, rfl⟩
      | .nonStarExpr (.colName c) a, _ =>
        exact ⟨_, rfl⟩
      | .nonStarExpr (.funcExpr c) a, _ =>
        exact ⟨_, rfl⟩
      | .nonStarExpr (.strVal c) a, _ =>
        exact ⟨_, rfl⟩
      | .nonStarExpr (.numVal c) a, _ =>
        exact ⟨_, rfl⟩
      | .nonStarExpr .nullVal a, _ =>
        exact ⟨_, rfl⟩
      | .nonStarExpr (.comparisonExpr op (.funcExpr c) r) a, _ =>
        exact ⟨_, rfl⟩
      | .nonStarExpr (.comparisonExpr op (.comparisonExpr _ _ _) r) a, _ =>
        exact ⟨_, rfl⟩
      | .nonStarExpr (.comparisonExpr op (.strVal c) r) a, _ =>
        exact ⟨_, rfl⟩
      | .nonStarExpr (.comparisonExpr op (.numVal c) r) a, _ =>
        exact ⟨_, rfl⟩
      | .nonStarExpr (.comparisonExpr op .nullVal r) a, _ =>
        exact ⟨_, rfl⟩
      | .nonStarExpr (.comparisonExpr op (.colName left) right) a, he =>
        exact absurd rfl he

/-- On at least one sub-expression, all of them comparisons with a column reference
on the left, `handleGroupByFuncExprDateHisto` returns the body whose only key is
`date_histogram`, each of `field`, `interval`, `format` being the right-hand side
of the last sub-expression that names it, or its default. -/
theorem handleGroupByFuncExprDateHisto_nonempty (str : SQLNode → String) (f : FuncExpr)
    (hne : f.Exprs ≠ []) (hall : ∀ e ∈ f.Exprs, leftIsColName e = true) :
    handleGroupByFuncExprDateHisto str f =
      .ok [("date_histogram", .obj
        [("field", .str (lastValue str "field" "" f.Exprs)),
         ("interval", .str (lastValue str "interval" "1h" f.Exprs)),
         ("format", .str (lastValue str "format" "yyyy-MM-dd HH:mm:ss" f.Exprs))])] := by
  unfold handleGroupByFuncExprDateHisto
  rw [handleGroupByFuncExprDateHisto.loop_ok str _ _ _ _ _ hall]
  have : f.Exprs.isEmpty = false := by
    cases h : f.Exprs with
    | nil => exact absurd h hne
    | cons a l => rfl
  simp [this, msi.set]

/-- The call `date_histogram(field = ts, interval = 1d)` gives field `ts`, interval
`1d` and the default format. -/
theorem handleGroupByFuncExprDateHisto_nonempty_witness :
    dateHistoTs.Exprs ≠ [] ∧ (∀ e ∈ dateHistoTs.Exprs, leftIsColName e = true) ∧
    handleGroupByFuncExprDateHisto sqlString dateHistoTs =
      .ok [("date_histogram", .obj
        [("field", .str "ts"), ("interval", .str "1d"),
         ("format", .str "yyyy-MM-dd HH:mm:ss")])] := by
  have h1 : dateHistoTs.Exprs ≠ [] := by simp [dateHistoTs, FuncExpr.Exprs]
  have h2 : ∀ e ∈ dateHistoTs.Exprs, leftIsColName e = true := by
    simp [dateHistoTs, FuncExpr.Exprs, arg, col, leftIsColName]
  exact ⟨h1, h2, (handleGroupByFuncExprDateHisto_nonempty sqlString dateHistoTs h1 h2).trans rfl⟩

/-- C7, at the call without sub-expressions: `handleGroupByFuncExprDateHisto`
succeeds with the empty body, which has no `date_histogram` entry and so none of
the three defaults; `handleGroupByFuncExpr` then emits a bucket with an empty body. -/
theorem handleGroupByFuncExprDateHisto_no_args :
    (∀ str : SQLNode → String,
      handleGroupByFuncExprDateHisto str dateHistoEmpty = .ok []) ∧
    msi.get ([] : msi) "date_histogram" = none ∧
    handleGroupByFuncExpr sqlString dateHistoEmpty [] = .ok [("date_histogram()", .obj [])] :=
  ⟨fun _ => rfl, rfl, rfl⟩

/-- C8, at the call `date_histogram(field < ts)`: its sub-expression is a comparison
that is not of the shape `a = b`, for which the specification and the comment of the
source (`must be like a = b format`) ask for an error; `handleGroupByFuncExprDateHisto`
never reads the operator, returns no error and sets `field` to `ts`, exactly as for
`date_histogram(field = ts)`. -/
theorem handleGroupByFuncExprDateHisto_accepts_less :
    (∀ e ∈ dateHistoLess.Exprs, isComparison e = true ∧ isEqualityShaped e = false) ∧
    (∀ str : SQLNode → String,
      handleGroupByFuncExprDateHisto str dateHistoLess =
        .ok [("date_histogram", .obj
          [("field", .str (strings.Remove (str (.expr (col "ts"))) (Char.ofNat 39))),
           ("interval", .str "1h"), ("format", .str "yyyy-MM-dd HH:mm:ss")])]) ∧
    handleGroupByFuncExprDateHisto sqlString dateHistoLess =
      .ok [("date_histogram", .obj [("field", .str "ts"), ("interval", .str "1h"),
        ("format", .str "yyyy-MM-dd HH:mm:ss")])] ∧
    (∀ str : SQLNode → String,
      handleGroupByFuncExprDateHisto str dateHistoLess =
        handleGroupByFuncExprDateHisto str dateHistoEqual) ∧
    ¬ ((∃ err, handleGroupByFuncExprDateHisto sqlString dateHistoLess = .error err) ↔
        ∃ e ∈ dateHistoLess.Exprs,
          isEqualityShaped e = false ∨ (isComparison e = true ∧ leftIsColName e = false)) := by
  refine ⟨?_, fun _ => rfl, rfl, fun _ => rfl, ?_⟩
  · intro e he
    simp only [dateHistoLess, FuncExpr.Exprs, List.mem_singleton] at he
    subst he
    exact ⟨rfl, by decide⟩
  · intro h
    have hr : ∃ e ∈ dateHistoLess.Exprs,
        isEqualityShaped e = false ∨ (isComparison e = true ∧ leftIsColName e = false) :=
      ⟨_, List.mem_cons_self _ _, Or.inl (by decide)⟩
    obtain ⟨err, herr⟩ := h.2 hr
    have hok : handleGroupByFuncExprDateHisto sqlString dateHistoLess =
        .ok [("date_histogram", .obj [("field", .str "ts"), ("interval", .str "1h"),
          ("format", .str "yyyy-MM-dd HH:mm:ss")])] := rfl
    rw [hok] at herr
    cases herr

/-- The test the code makes: `handleGroupByFuncExprDateHisto` fails exactly when at
least one sub-expression is not a comparison node (a wildcard included) or is a
comparison whose left side is not a column-reference node; neither the operator
nor the left name is a cause of failure. -/
theorem handleGroupByFuncExprDateHisto_error_iff (str : SQLNode → String) (f : FuncExpr) :
    (∃ err, handleGroupByFuncExprDateHisto str f = .error err) ↔
      ∃ e ∈ f.Exprs, isComparison e = false ∨ (isComparison e = true ∧ leftIsColName e = false) := by
  have hsplit : ∀ e : SelectExpr,
      (isComparison e = false ∨ (isComparison e = true ∧ leftIsColName e = false)) ↔
        leftIsColName e = false := by
    intro e
    constructor
    · rintro (h | ⟨-, h⟩)
      · cases hl : leftIsColName e with
        | false => rfl
        | true =>
          exfalso
          match e, hl, h with
          | .nonStarExpr (.comparisonExpr op (.colName left) right) a, _, h =>
            simp [isComparison] at h
      · exact h
    · intro h
      cases hc : isComparison e with
      | false => exact Or.inl rfl
      | true => exact Or.inr ⟨rfl, h⟩
  constructor
  · rintro ⟨err, herr⟩
    by_contra hno
    have hall : ∀ e ∈ f.Exprs, leftIsColName e = true := by
      intro e he
      cases hl : leftIsColName e with
      | true => rfl
      | false => exact absurd ⟨e, he, (hsplit e).2 hl⟩ hno
    unfold handleGroupByFuncExprDateHisto at herr
    rw [handleGroupByFuncExprDateHisto.loop_ok str _ _ _ _ _ hall] at herr
    cases herr
  · rintro ⟨e, he, h⟩
    exact handleGroupByFuncExprDateHisto.loop_error str _ _ _ _ _ ⟨e, he, (hsplit e).1 h⟩

/-- Whether `handleGroupByFuncExpr` succeeds does not depend on the child. -/
theorem handleGroupByFuncExpr_isOk_child (str : SQLNode → String) (f : FuncExpr) (ch : msi) :
    (handleGroupByFuncExpr str f ch).isOk = (handleGroupByFuncExpr str f []).isOk := by
  unfold handleGroupByFuncExpr
  simp only []
  generalize (if f.Name = "date_histogram" then handleGroupByFuncExprDateHisto str f
    else if f.Name = "range" then handleGroupByFuncExprRange str f
    else if f.Name = "date_range" then handleGroupByFuncExprDateRange f
    else Except.error ("elasticsql: unsupported group by functions" ++
      str (.expr (.funcExpr f)))) = d
  cases d <;> rfl

/-! ## The tree builder: invariants of the loop -/

/-- The invariant rule of the loop of `handleGroupByAgg`: a property of the
running child at the counter `n` that every kind of item carries from `i + 1` to
`i` holds at 0 of the tree the loop returns. -/
theorem handleGroupByAgg.loop_invariant (str : SQLNode → String) (g : GroupBy)
    (Inv : Nat → msi → Prop)
    (hcol : ∀ (i : Nat) (hi : i < g.length) (c : ColName) (child : msi),
      g.get ⟨i, hi⟩ = .colName c → Inv (i + 1) child →
        Inv i (handleGroupByColName c i child))
    (hfunc : ∀ (i : Nat) (hi : i < g.length) (f : FuncExpr) (child t : msi),
      g.get ⟨i, hi⟩ = .funcExpr f → Inv (i + 1) child →
        handleGroupByFuncExpr str f child = .ok t → Inv i t)
    (hskip : ∀ (i : Nat) (hi : i < g.length) (child : msi),
      isBucketItem (g.get ⟨i, hi⟩) = false → Inv (i + 1) child → Inv i child) :
    ∀ (n : Nat) (h : n ≤ g.length) (child t : msi), Inv n child →
      handleGroupByAgg.loop str g n h child = .ok t → Inv 0 t := by
  intro n
  induction n with
  | zero =>
    intro h child t hinv hloop
    simp only [handleGroupByAgg.loop] at hloop
    cases hloop
    exact hinv
  | succ i ih =>
    intro h child t hinv hloop
    have hi : i < g.length := h
    rw [handleGroupByAgg.loop] at hloop
    split at hloop
    · rename_i item heq
      exact ih _ _ _ (hcol i hi item child heq hinv) hloop
    · rename_i item heq
      split at hloop
      · cases hloop
      · rename_i currentMap hcur
        exact ih _ _ _ (hfunc i hi item child currentMap heq hinv hcur) hloop
    · rename_i hc hf
      have hb : isBucketItem (g.get ⟨i, hi⟩) = false := by
        cases hgi : g.get ⟨i, hi⟩ with
        | colName c => exact absurd hgi (hc c)
        | funcExpr f => exact absurd hgi (hf f)
        | comparisonExpr op l r => rfl
        | strVal v => rfl
        | numVal v => rfl
        | nullVal => rfl
      exact ih _ _ _ (hskip i hi child hb hinv) hloop

/-- The error of `handleGroupByFuncExpr` does not depend on the child. -/
theorem handleGroupByFuncExpr_error_child (str : SQLNode → String) (f : FuncExpr) (ch : msi)
    (err : String) :
    handleGroupByFuncExpr str f ch = .error err ↔
      handleGroupByFuncExpr str f [] = .error err := by
  unfold handleGroupByFuncExpr
  simp only []
  generalize (if f.Name = "date_histogram" then handleGroupByFuncExprDateHisto str f
    else if f.Name = "range" then handleGroupByFuncExprRange str f
    else if f.Name = "date_range" then handleGroupByFuncExprDateRange f
    else Except.error ("elasticsql: unsupported group by functions" ++
      str (.expr (.funcExpr f)))) = d
  cases d with
  | error e => simp
  | ok m => simp

/-- The outcome of `handleGroupByFuncExpr` on the child `ch`, read off `itemError`. -/
theorem handleGroupByFuncExpr_itemError (str : SQLNode → String) (f : FuncExpr) (ch : msi) :
    (∀ err, itemError str (.funcExpr f) = some err →
      handleGroupByFuncExpr str f ch = .error err) ∧
    (itemError str (.funcExpr f) = none → ∃ t, handleGroupByFuncExpr str f ch = .ok t) := by
  constructor
  · intro err h
    rw [handleGroupByFuncExpr_error_child]
    simp only [itemError] at h
    split at h
    · rename_i e he
      cases h
      exact he
    · cases h
  · intro h
    simp only [itemError] at h
    split at h
    · cases h
    · cases hch : handleGroupByFuncExpr str f ch with
      | ok t => exact ⟨t, rfl⟩
      | error e =>
        rename_i m hm
        rw [handleGroupByFuncExpr_error_child] at hch
        rw [hm] at hch
        cases hch

/-- The loop of `handleGroupByAgg` from the counter `n` fails with the error of the
last failing item among the first `n`, and succeeds when none of them fails. -/
theorem handleGroupByAgg.loop_failure (str : SQLNode → String) (g : GroupBy) :
    ∀ (n : Nat) (h : n ≤ g.length) (child : msi),
      (∀ err, lastFailure str (g.take n) = some err →
        handleGroupByAgg.loop str g n h child = .error err) ∧
      (lastFailure str (g.take n) = none →
        ∃ t, handleGroupByAgg.loop str g n h child = .ok t) := by
  intro n
  induction n with
  | zero =>
    intro h child
    simp [lastFailure, handleGroupByAgg.loop]
  | succ i ih =>
    intro h child
    have hi : i < g.length := h
    have htake : g.take (i + 1) = g.take i ++ [g[i]] := by
      rw [List.take_succ]
      simp [List.getElem?_eq_getElem hi]
    have hlast : lastFailure str (g.take (i + 1)) =
        (itemError str g[i]).or (lastFailure str (g.take i)) := by
      unfold lastFailure
      rw [htake, List.filterMap_append, List.getLast?_append]
      cases hie : itemError str g[i] with
      | none =>
        have : List.filterMap (itemError str) [g[i]] = [] := by
          rw [List.filterMap_cons, hie]; rfl
        rw [this]; rfl
      | some e =>
        have : List.filterMap (itemError str) [g[i]] = [e] := by
          rw [List.filterMap_cons, hie]; rfl
        rw [this]; rfl
    rw [hlast, handleGroupByAgg.loop]
    split
    · rename_i item heq
      rw [heq]
      simpa [itemError] using ih (Nat.le_of_succ_le h) (handleGroupByColName item i child)
    · rename_i item heq
      rw [heq]
      obtain ⟨hfail, hpass⟩ := handleGroupByFuncExpr_itemError str item child
      cases hie : itemError str (.funcExpr item) with
      | some e =>
        rw [hfail e hie]
        simp
      | none =>
        obtain ⟨t, ht⟩ := hpass hie
        rw [ht]
        simpa using ih (Nat.le_of_succ_le h) t
    · rename_i hc hf
      have hnone : itemError str g[i] = none := by
        cases hgi : g[i] with
        | colName c => exact absurd hgi (hc c)
        | funcExpr f => exact absurd hgi (hf f)
        | comparisonExpr op l r => rfl
        | strVal v => rfl
        | numVal v => rfl
        | nullVal => rfl
      rw [hnone]
      simpa using ih (Nat.le_of_succ_le h) child

/-- An item fails exactly when `lastFailure` names an error. -/
theorem lastFailure_isSome_iff (str : SQLNode → String) (g : GroupBy) :
    (∃ err, lastFailure str g = some err) ↔
      ∃ f, Expr.funcExpr f ∈ g ∧ ∃ e, ∀ ch, handleGroupByFuncExpr str f ch = .error e := by
  constructor
  · rintro ⟨err, herr⟩
    have hmem : err ∈ g.filterMap (itemError str) := List.mem_of_getLast?_eq_some herr
    obtain ⟨x, hx, hxe⟩ := List.mem_filterMap.1 hmem
    cases x with
    | funcExpr f =>
      exact ⟨f, hx, err, fun ch => (handleGroupByFuncExpr_itemError str f ch).1 err hxe⟩
    | colName c => simp [itemError] at hxe
    | comparisonExpr op l r => simp [itemError] at hxe
    | strVal v => simp [itemError] at hxe
    | numVal v => simp [itemError] at hxe
    | nullVal => simp [itemError] at hxe
  · rintro ⟨f, hf, e, he⟩
    have hie : itemError str (.funcExpr f) = some e := by
      simp only [itemError, he []]
    have hmem : e ∈ g.filterMap (itemError str) := List.mem_filterMap.2 ⟨_, hf, hie⟩
    cases hl : lastFailure str g with
    | some err => exact ⟨err, rfl⟩
    | none =>
      unfold lastFailure at hl
      rw [List.getLast?_eq_none_iff] at hl
      rw [hl] at hmem
      cases hmem

/-- C11: `handleGroupByAgg g M` fails exactly when a function-call item of `g` fails
in `handleGroupByFuncExpr`; the error is then the error of the failing item with
the largest index, whatever `M` and the other items, no tree is returned, and
`buildAggs` returns the empty string with that error. -/
theorem handleGroupByAgg_error_iff (str : SQLNode → String) (g : GroupBy) (M : msi) :
    ((∃ err, handleGroupByAgg str g M = .error err) ↔
      ∃ f, Expr.funcExpr f ∈ g ∧ ∃ e, ∀ ch, handleGroupByFuncExpr str f ch = .error e) ∧
    (∀ err, handleGroupByAgg str g M = .error err ↔ lastFailure str g = some err) ∧
    (∀ (enc : String → String) (S : SelectExprs) (err : String),
      lastFailure str g = some err → buildAggs str enc ⟨S, g⟩ = ("", some err)) := by
  have hloop : ∀ child : msi,
      (∀ err, lastFailure str g = some err → handleGroupByAgg str g child = .error err) ∧
      (lastFailure str g = none → ∃ t, handleGroupByAgg str g child = .ok t) := by
    intro child
    have := handleGroupByAgg.loop_failure str g g.length (Nat.le_refl _) child
    rwa [List.take_length] at this
  have hiff : ∀ err, handleGroupByAgg str g M = .error err ↔ lastFailure str g = some err := by
    intro err
    constructor
    · intro h
      cases hl : lastFailure str g with
      | some e =>
        have := (hloop M).1 e hl
        rw [this] at h
        cases h
        rfl
      | none =>
        obtain ⟨t, ht⟩ := (hloop M).2 hl
        rw [ht] at h
        cases h
    · exact (hloop M).1 err
  refine ⟨?_, hiff, ?_⟩
  · rw [← lastFailure_isSome_iff]
    exact ⟨fun ⟨err, h⟩ => ⟨err, (hiff err).1 h⟩, fun ⟨err, h⟩ => ⟨err, (hiff err).2 h⟩⟩
  · intro enc S err h
    simp only [buildAggs, (hloop _).1 err h]

/-- A GROUP BY list without column reference and function call leaves the metric
mapping as it is and does not fail; an item of another kind before a column adds
no bucket and leaves the column at position 1, not 0. -/
theorem handleGroupByAgg_only_skipped (str : SQLNode → String) (g : GroupBy) (M : msi)
    (hg : ∀ e ∈ g, isBucketItem e = false) :
    handleGroupByAgg str g M = .ok M ∧
    (∀ (e : Expr) (c : ColName), e ∈ g →
      handleGroupByAgg str [e, .colName c] M = .ok (handleGroupByColName c 1 M)) := by
  constructor
  · have hok : ∃ t, handleGroupByAgg str g M = .ok t := by
      have h := handleGroupByAgg.loop_failure str g g.length (Nat.le_refl _) M
      rw [List.take_length] at h
      apply h.2
      cases hl : lastFailure str g with
      | none => rfl
      | some err =>
        obtain ⟨f, hf, -⟩ := (lastFailure_isSome_iff str g).1 ⟨err, hl⟩
        have := hg _ hf
        simp [isBucketItem] at this
    obtain ⟨t, ht⟩ := hok
    have := handleGroupByAgg.loop_invariant str g (fun _ c => c = M)
      (fun i hi c child hgi _ => by
        have := hg _ (List.get_mem g i hi)
        rw [hgi] at this
        simp [isBucketItem] at this)
      (fun i hi f child t hgi _ _ => by
        have := hg _ (List.get_mem g i hi)
        rw [hgi] at this
        simp [isBucketItem] at this)
      (fun i hi child _ h => h)
      g.length (Nat.le_refl _) M t rfl ht
    rw [ht, this]
  · intro e c he
    have hb := hg e he
    cases e with
    | colName c' => simp [isBucketItem] at hb
    | funcExpr f => simp [isBucketItem] at hb
    | comparisonExpr op l r => rfl
    | strVal v => rfl
    | numVal v => rfl
    | nullVal => rfl

/-! ## The expression classifier -/

/-- The loop of `extractFuncAndColFromSelect` appends the function calls of the
expressions it visits. -/
theorem extractFuncAndColFromSelect.foldl_step (s : SelectExprs) :
    ∀ funcArr : List FuncExpr,
      s.foldl extractFuncAndColFromSelect.step funcArr = funcArr ++ s.filterMap funcCallOf := by
  induction s with
  | nil => intro funcArr; simp
  | cons v rest ih =>
    intro funcArr
    rw [List.foldl_cons, ih]
    match v with
    | .starExpr t => simp [extractFuncAndColFromSelect.step, funcCallOf]
    | .nonStarExpr (.funcExpr f) a => simp [extractFuncAndColFromSelect.step, funcCallOf]
    | .nonStarExpr (.colName c) a => simp [extractFuncAndColFromSelect.step, funcCallOf]
    | .nonStarExpr (.comparisonExpr op l r) a =>
      simp [extractFuncAndColFromSelect.step, funcCallOf]
    | .nonStarExpr (.strVal x) a => simp [extractFuncAndColFromSelect.step, funcCallOf]
    | .nonStarExpr (.numVal x) a => simp [extractFuncAndColFromSelect.step, funcCallOf]
    | .nonStarExpr .nullVal a => simp [extractFuncAndColFromSelect.step, funcCallOf]

/-- C13: `extractFuncAndColFromSelect s` never returns an error, and its first
result is the list of the function calls held by the non-wildcard expressions of
`s`, in the order of `s` and with their multiplicity; every other expression
contributes nothing. -/
theorem extractFuncAndColFromSelect_spec (s : SelectExprs) :
    (extractFuncAndColFromSelect s).2.2 = none ∧
    (extractFuncAndColFromSelect s).1 = s.filterMap funcCallOf ∧
    List.Sublist ((extractFuncAndColFromSelect s).1.map (fun f => Expr.funcExpr f))
      (s.filterMap (fun e =>
        match e with
        | .nonStarExpr x _ => some x
        | .starExpr _ => none)) := by
  have h : (extractFuncAndColFromSelect s).1 = s.filterMap funcCallOf := by
    simp [extractFuncAndColFromSelect, extractFuncAndColFromSelect.foldl_step]
  refine ⟨rfl, h, ?_⟩
  rw [h]
  clear h
  induction s with
  | nil => simp
  | cons v rest ih =>
    match v with
    | .starExpr t => simpa [funcCallOf] using ih
    | .nonStarExpr (.funcExpr f) a => simpa [funcCallOf] using ih
    | .nonStarExpr (.colName c) a =>
      simpa [funcCallOf] using List.Sublist.cons _ ih
    | .nonStarExpr (.comparisonExpr op l r) a =>
      simpa [funcCallOf] using List.Sublist.cons _ ih
    | .nonStarExpr (.strVal x) a => simpa [funcCallOf] using List.Sublist.cons _ ih
    | .nonStarExpr (.numVal x) a => simpa [funcCallOf] using List.Sublist.cons _ ih
    | .nonStarExpr .nullVal a => simpa [funcCallOf] using List.Sublist.cons _ ih

/-- The list `colA, date_range(ts, 1, 2), RANGE(price, 0, 10)` fails with the error
of its last item, and `buildAggs` returns the empty string with it. -/
theorem handleGroupByAgg_error_iff_witness :
    handleGroupByAgg sqlString groupByFailing oneMetric =
      .error "elasticsql: unsupported group by functionsRANGE(price, 0, 10)" ∧
    buildAggs sqlString json.quote ⟨[], groupByFailing⟩ =
      ("", some "elasticsql: unsupported group by functionsRANGE(price, 0, 10)") := by
  have h := handleGroupByAgg_error_iff sqlString groupByFailing oneMetric
  exact ⟨(h.2.1 _).2 rfl, h.2.2 json.quote [] _ rfl⟩

/-! ## The whole compilation -/

/-- C12: for a statement whose SELECT list holds only wildcards and plain columns
and whose GROUP BY list is empty, `buildAggs` succeeds, the compiled tree is the
empty mapping and its serialisation is the text of the empty object. -/
theorem buildAggs_plain (str : SQLNode → String) (enc : String → String) (sel : Select)
    (hsel : ∀ e ∈ sel.SelectExprs, isWildcardOrColumn e = true) (hg : sel.GroupBy = []) :
    handleGroupByAgg str sel.GroupBy
        (handleFuncInSelectAgg str (extractFuncAndColFromSelect sel.SelectExprs).1) = .ok [] ∧
    buildAggs str enc sel = ("\x7b\x7d", none) := by
  have hnone : sel.SelectExprs.filterMap funcCallOf = [] := by
    rw [List.filterMap_eq_nil_iff]
    intro e he
    have := hsel e he
    match e, this with
    | .starExpr t, _ => rfl
    | .nonStarExpr (.colName c) a, _ => rfl
  have hex : (extractFuncAndColFromSelect sel.SelectExprs).1 = [] := by
    simp [extractFuncAndColFromSelect, extractFuncAndColFromSelect.foldl_step, hnone]
  have htree : handleGroupByAgg str sel.GroupBy
      (handleFuncInSelectAgg str (extractFuncAndColFromSelect sel.SelectExprs).1) = .ok [] := by
    rw [hex, hg]
    rfl
  refine ⟨htree, ?_⟩
  simp only [buildAggs, htree]
  rfl

/-- The statement `SELECT *, a FROM t` compiles to the empty object. -/
theorem buildAggs_plain_witness :
    (∀ e ∈ selectPlain.SelectExprs, isWildcardOrColumn e = true) ∧
    selectPlain.GroupBy = [] ∧
    buildAggs sqlString json.quote selectPlain = ("\x7b\x7d", none) := by
  have h1 : ∀ e ∈ selectPlain.SelectExprs, isWildcardOrColumn e = true := by
    simp [selectPlain, arg, col, isWildcardOrColumn]
  exact ⟨h1, rfl, (buildAggs_plain sqlString json.quote selectPlain h1 rfl).2⟩

/-! ## The metric compiler: several calls -/

/-- One step of `handleFuncInSelectAgg` assigns the metric body to the metric key. -/
theorem handleFuncInSelectAgg.step_eq (str : SQLNode → String) (m : msi) (v : FuncExpr) :
    handleFuncInSelectAgg.step str m v = msi.set m (metricKey str v) (metricBody str v) := by
  unfold handleFuncInSelectAgg.step metricKey metricBody
  by_cases h1 : v.Name = "count"
  · by_cases h2 : str (.selectExprs v.Exprs) = "*"
    · simp [h1, h2]
    · by_cases h3 : v.Distinct = true
      · simp [h1, h2, h3]
      · simp [h1, h2, h3]
  · simp [h1]

/-- A key is in the key list exactly when the map has a value for it. -/
theorem msi.mem_keys_iff (m : msi) (k : String) :
    k ∈ msi.keys m ↔ ∃ v, msi.get m k = some v := by
  induction m with
  | nil => simp [msi.keys, msi.get]
  | cons p rest ih =>
    obtain ⟨k', v'⟩ := p
    by_cases h : k' = k
    · simp [msi.keys, msi.get, h]
    · have ih' : k ∈ List.map Prod.fst rest ↔ ∃ v, msi.get rest k = some v := ih
      simp only [msi.keys, List.map_cons, List.mem_cons, msi.get, h, if_false]
      rw [ih']
      constructor
      · rintro (h' | h')
        · exact absurd h'.symm h
        · exact h'
      · exact Or.inr

/-- The keys after an assignment: the key is added at the end if it is new. -/
theorem msi.keys_set (m : msi) (k : String) (v : Value) :
    msi.keys (msi.set m k v) = if k ∈ msi.keys m then msi.keys m else msi.keys m ++ [k] := by
  induction m with
  | nil => simp [msi.keys, msi.set]
  | cons p rest ih =>
    obtain ⟨k', v'⟩ := p
    by_cases h : k' = k
    · simp [msi.keys, msi.set, h]
    · have ih' : List.map Prod.fst (msi.set rest k v) =
          if k ∈ List.map Prod.fst rest then List.map Prod.fst rest
          else List.map Prod.fst rest ++ [k] := ih
      have hne : ¬ k = k' := fun e => h e.symm
      simp only [msi.keys, msi.set, h, if_false, List.map_cons, List.mem_cons, hne, false_or]
      rw [ih']
      split <;> simp

/-- An assignment keeps the keys distinct. -/
theorem msi.keys_set_nodup (m : msi) (k : String) (v : Value) (h : (msi.keys m).Nodup) :
    (msi.keys (msi.set m k v)).Nodup := by
  rw [msi.keys_set]
  split
  · exact h
  · rename_i hk
    exact List.Nodup.append h (List.nodup_singleton k) (by simpa using hk)

/-- The value under a key after the assignments of a list of calls: the body of the
last call with that key, or the value held before. -/
theorem handleFuncInSelectAgg.foldl_get (str : SQLNode → String) (calls : List FuncExpr)
    (k : String) :
    ∀ m : msi,
      msi.get (calls.foldl (handleFuncInSelectAgg.step str) m) k =
        match (calls.filter (fun v => decide (metricKey str v = k))).getLast? with
        | some v => some (metricBody str v)
        | none => msi.get m k := by
  induction calls with
  | nil => intro m; simp
  | cons v rest ih =>
    intro m
    rw [List.foldl_cons, ih, handleFuncInSelectAgg.step_eq]
    by_cases hk : metricKey str v = k
    · rw [List.filter_cons_of_pos (by simpa using hk), List.getLast?_cons]
      cases hl : (rest.filter (fun v => decide (metricKey str v = k))).getLast? with
      | some w => simp
      | none => simp [hk, msi.get_set_self]
    · rw [List.filter_cons_of_neg (by simpa using hk)]
      cases hl : (rest.filter (fun v => decide (metricKey str v = k))).getLast? with
      | some w => simp
      | none => simp [msi.get_set_ne _ _ _ _ (Ne.symm hk)]

/-- The keys stay distinct along the assignments of a list of calls. -/
theorem handleFuncInSelectAgg.foldl_nodup (str : SQLNode → String) (calls : List FuncExpr) :
    ∀ m : msi, (msi.keys m).Nodup →
      (msi.keys (calls.foldl (handleFuncInSelectAgg.step str) m)).Nodup := by
  induction calls with
  | nil => intro m h; simpa using h
  | cons v rest ih =>
    intro m h
    rw [List.foldl_cons, handleFuncInSelectAgg.step_eq]
    exact ih _ (msi.keys_set_nodup _ _ _ h)

/-- C14: the mapping returned by `handleFuncInSelectAgg` has as keys exactly the
metric keys of the calls, each once, so its size is the number of distinct keys, at
most the number of calls and equal to it when the keys are pairwise distinct; the
body under a key is the body compiled from the last call with that key. -/
theorem handleFuncInSelectAgg_spec (str : SQLNode → String) (calls : List FuncExpr) :
    (∀ v, handleFuncInSelectAgg str [v] = [(metricKey str v, metricBody str v)]) ∧
    (∀ k, k ∈ msi.keys (handleFuncInSelectAgg str calls) ↔
      ∃ v ∈ calls, metricKey str v = k) ∧
    (msi.keys (handleFuncInSelectAgg str calls)).Nodup ∧
    msi.len (handleFuncInSelectAgg str calls) = ((calls.map (metricKey str)).dedup).length ∧
    msi.len (handleFuncInSelectAgg str calls) ≤ calls.length ∧
    ((calls.map (metricKey str)).Nodup →
      msi.len (handleFuncInSelectAgg str calls) = calls.length) ∧
    (∀ k, msi.get (handleFuncInSelectAgg str calls) k =
      ((calls.filter (fun v => decide (metricKey str v = k))).getLast?).map
        (metricBody str)) := by
  have hget : ∀ k, msi.get (handleFuncInSelectAgg str calls) k =
      ((calls.filter (fun v => decide (metricKey str v = k))).getLast?).map
        (metricBody str) := by
    intro k
    unfold handleFuncInSelectAgg
    rw [handleFuncInSelectAgg.foldl_get]
    cases (calls.filter (fun v => decide (metricKey str v = k))).getLast? <;> simp [msi.get]
  have hkeys : ∀ k, k ∈ msi.keys (handleFuncInSelectAgg str calls) ↔
      ∃ v ∈ calls, metricKey str v = k := by
    intro k
    rw [msi.mem_keys_iff, hget]
    constructor
    · rintro ⟨b, hb⟩
      cases hl : (calls.filter (fun v => decide (metricKey str v = k))).getLast? with
      | none => rw [hl] at hb; cases hb
      | some w =>
        have hw := List.mem_of_getLast?_eq_some hl
        rw [List.mem_filter] at hw
        exact ⟨w, hw.1, by simpa using hw.2⟩
    · rintro ⟨v, hv, hvk⟩
      have hmem : v ∈ calls.filter (fun v => decide (metricKey str v = k)) := by
        rw [List.mem_filter]
        exact ⟨hv, by simpa using hvk⟩
      cases hl : (calls.filter (fun v => decide (metricKey str v = k))).getLast? with
      | none =>
        rw [List.getLast?_eq_none_iff] at hl
        rw [hl] at hmem
        cases hmem
      | some w => exact ⟨_, rfl⟩
  have hnodup : (msi.keys (handleFuncInSelectAgg str calls)).Nodup :=
    handleFuncInSelectAgg.foldl_nodup str calls [] (by simp [msi.keys])
  have hperm : List.Perm (msi.keys (handleFuncInSelectAgg str calls))
      ((calls.map (metricKey str)).dedup) := by
    rw [List.perm_ext_iff_of_nodup hnodup (List.nodup_dedup _)]
    intro k
    rw [hkeys, List.mem_dedup, List.mem_map]
  have hlen : msi.len (handleFuncInSelectAgg str calls) =
      ((calls.map (metricKey str)).dedup).length := by
    rw [← hperm.length_eq]
    simp [msi.len, msi.keys]
  refine ⟨?_, hkeys, hnodup, hlen, ?_, ?_, hget⟩
  · intro v
    simp [handleFuncInSelectAgg, handleFuncInSelectAgg.step_eq, msi.set]
  · rw [hlen]
    calc ((calls.map (metricKey str)).dedup).length
        ≤ (calls.map (metricKey str)).length := (List.dedup_sublist _).length_le
      _ = calls.length := List.length_map _ _
  · intro hnd
    rw [hlen, List.Nodup.dedup hnd, List.length_map]

/-! ## The shape of a compiled bucket -/

/-- The loop of `handleGroupByFuncExprDateHisto` writes the key `date_histogram`
only. -/
theorem handleGroupByFuncExprDateHisto.loop_get (str : SQLNode → String) (k : String)
    (hk : k ≠ "date_histogram") :
    ∀ (exprs : List SelectExpr) (innerMap : msi) (field interval format : String) (r : msi),
      handleGroupByFuncExprDateHisto.loop str exprs innerMap field interval format = .ok r →
      msi.get r k = msi.get innerMap k := by
  intro exprs
  induction exprs with
  | nil =>
    intro innerMap field interval format r h
    simp only [handleGroupByFuncExprDateHisto.loop] at h
    cases h
    rfl
  | cons e rest ih =>
    intro innerMap field interval format r h
    by_cases he : leftIsColName e = true
    · match e, he with
      | .nonStarExpr (.comparisonExpr op (.colName left) right) a, _ =>
        simp only [handleGroupByFuncExprDateHisto.loop] at h
        rw [ih _ _ _ _ _ h, msi.get_set_ne _ _ _ _ hk]
    · obtain ⟨err, herr⟩ := handleGroupByFuncExprDateHisto.loop_error str (e :: rest)
        innerMap field interval format ⟨e, List.mem_cons_self _ _, by simpa using he⟩
      rw [herr] at h
      cases h

/-- A bucket body of a dispatched variant has no key other than `date_histogram`
and `range`. -/
theorem dispatchedBody_get (str : SQLNode → String) (f : FuncExpr) (inner : msi) (k : String)
    (h : dispatchedBody str f = .ok inner) (h1 : k ≠ "date_histogram") (h2 : k ≠ "range") :
    msi.get inner k = none := by
  unfold dispatchedBody at h
  by_cases hd : f.Name = "date_histogram"
  · rw [if_pos hd] at h
    unfold handleGroupByFuncExprDateHisto at h
    rw [handleGroupByFuncExprDateHisto.loop_get str k h1 _ _ _ _ _ _ h]
    rfl
  · rw [if_neg hd] at h
    by_cases hr : f.Name = "range"
    · rw [if_pos hr] at h
      unfold handleGroupByFuncExprRange at h
      split at h
      · cases h
      · simp only [] at h
        cases h
        simp [msi.set, msi.get, hr, Ne.symm h2]
    · rw [if_neg hr] at h
      by_cases hdr : f.Name = "date_range"
      · rw [if_pos hdr] at h
        cases h
      · rw [if_neg hdr] at h
        cases h

/-- What a success of `handleGroupByFuncExpr` returns: the single key `bucketKey`
with the body of the dispatched variant, to which the child is assigned under
`aggregations` when it is not empty. -/
theorem handleGroupByFuncExpr_ok_inv (str : SQLNode → String) (f : FuncExpr) (ch t : msi)
    (h : handleGroupByFuncExpr str f ch = .ok t) :
    ∃ inner : msi, dispatchedBody str f = .ok inner ∧
      t = [(bucketKey str (.funcExpr f),
        .obj (if ch.len > 0 then msi.set inner "aggregations" (.obj ch) else inner))] := by
  unfold handleGroupByFuncExpr at h
  simp only [] at h
  unfold dispatchedBody
  generalize (if f.Name = "date_histogram" then handleGroupByFuncExprDateHisto str f
    else if f.Name = "range" then handleGroupByFuncExprRange str f
    else if f.Name = "date_range" then handleGroupByFuncExprDateRange f
    else Except.error ("elasticsql: unsupported group by functions" ++
      str (.expr (.funcExpr f)))) = d at h ⊢
  cases d with
  | error e => cases h
  | ok inner =>
    refine ⟨inner, rfl, ?_⟩
    simp only [] at h
    cases h
    rfl

/-- A non-empty map has a positive length, an empty one has not. -/
theorem msi.len_pos_iff (m : msi) : m.len > 0 ↔ m ≠ [] := by
  cases m with
  | nil => simp [msi.len]
  | cons p rest => simp [msi.len]

/-- The shape of a function bucket: one key, the child under `aggregations` exactly
when the child is not empty, and no `terms` entry. -/
theorem handleGroupByFuncExpr_shape (str : SQLNode → String) (f : FuncExpr) (ch t : msi)
    (h : handleGroupByFuncExpr str f ch = .ok t) :
    ∃ body : msi, t = [(bucketKey str (.funcExpr f), .obj body)] ∧
      (ch ≠ [] → msi.get body "aggregations" = some (.obj ch)) ∧
      (ch = [] → msi.get body "aggregations" = none) ∧
      msi.get body "terms" = none := by
  obtain ⟨inner, hin, ht⟩ := handleGroupByFuncExpr_ok_inv str f ch t h
  have hagg : msi.get inner "aggregations" = none :=
    dispatchedBody_get str f inner _ hin (by decide) (by decide)
  have hterms : msi.get inner "terms" = none :=
    dispatchedBody_get str f inner _ hin (by decide) (by decide)
  refine ⟨_, ht, ?_, ?_, ?_⟩
  · intro hne
    rw [if_pos ((msi.len_pos_iff ch).2 hne)]
    exact msi.get_set_self _ _ _
  · intro he
    have : ¬ ch.len > 0 := fun hp => (msi.len_pos_iff ch).1 hp he
    rw [if_neg this]
    exact hagg
  · split
    · rw [msi.get_set_ne _ _ _ _ (by decide)]
      exact hterms
    · exact hterms

/-- The shape of a column bucket: one key, the child under `aggregations` exactly
when the child is not empty, and a `terms` entry of size 200 at index 0 and of
size 0 elsewhere. -/
theorem handleGroupByColName_shape (c : ColName) (i : Int) (ch : msi) :
    ∃ body : msi, handleGroupByColName c i ch = [(c.Name, .obj body)] ∧
      (ch ≠ [] → msi.get body "aggregations" = some (.obj ch)) ∧
      (ch = [] → msi.get body "aggregations" = none) ∧
      termsSizeOf body = some (if i = 0 then 200 else 0) := by
  cases ch with
  | nil =>
    by_cases hi : i = 0 <;>
      simp [handleGroupByColName, msi.set, msi.get, msi.len, termsSizeOf, hi]
  | cons p rest =>
    by_cases hi : i = 0 <;>
      simp [handleGroupByColName, msi.set, msi.get, msi.len, termsSizeOf, hi]

/-- C15: when `handleGroupByFuncExpr f ch` succeeds, the result has exactly one key,
the printed call without spaces and single quotes, and the value under it is the
bucket body of the dispatched variant, extended with `aggregations = ch` exactly
when `ch` is not empty. -/
theorem handleGroupByFuncExpr_spec (str : SQLNode → String) (f : FuncExpr) (ch t : msi)
    (h : handleGroupByFuncExpr str f ch = .ok t) :
    ∃ inner body : msi, dispatchedBody str f = .ok inner ∧
      t = [(strings.Remove (strings.Remove (str (.expr (.funcExpr f))) (Char.ofNat 32))
              (Char.ofNat 39), .obj body)] ∧
      (ch = [] → body = inner) ∧
      (ch ≠ [] → body = msi.set inner "aggregations" (.obj ch)) ∧
      (msi.get body "aggregations" = some (.obj ch) ↔ ch ≠ []) ∧
      msi.get inner "aggregations" = none ∧
      (∀ k, k ≠ "aggregations" → msi.get body k = msi.get inner k) := by
  obtain ⟨inner, hin, ht⟩ := handleGroupByFuncExpr_ok_inv str f ch t h
  have hagg : msi.get inner "aggregations" = none :=
    dispatchedBody_get str f inner _ hin (by decide) (by decide)
  by_cases hch : ch = []
  · have hlen : ¬ ch.len > 0 := fun hp => (msi.len_pos_iff ch).1 hp hch
    rw [if_neg hlen] at ht
    refine ⟨inner, inner, hin, ht, fun _ => rfl, fun hne => absurd hch hne, ?_, hagg,
      fun _ _ => rfl⟩
    rw [hagg]
    simp [hch]
  · have hlen : ch.len > 0 := (msi.len_pos_iff ch).2 hch
    rw [if_pos hlen] at ht
    refine ⟨inner, _, hin, ht, fun he => absurd he hch, fun _ => rfl, ?_, hagg, ?_⟩
    · rw [msi.get_set_self]
      simp [hch]
    · intro k hk
      exact msi.get_set_ne _ _ _ _ hk

/-- The call `date_histogram(field = ts, interval = 1d)` over one metric compiles
to the key `date_histogram(field=ts,interval=1d)` whose body holds the
`date_histogram` bucket and the metric. -/
theorem handleGroupByFuncExpr_spec_witness :
    handleGroupByFuncExpr sqlString dateHistoTs oneMetric =
      .ok [("date_histogram(field=ts,interval=1d)", .obj
        [("date_histogram", .obj [("field", .str "ts"), ("interval", .str "1d"),
            ("format", .str "yyyy-MM-dd HH:mm:ss")]),
         ("aggregations", .obj oneMetric)])] ∧
    ∃ inner body : msi, dispatchedBody sqlString dateHistoTs = .ok inner ∧
      ([("date_histogram(field=ts,interval=1d)", .obj
        [("date_histogram", .obj [("field", .str "ts"), ("interval", .str "1d"),
            ("format", .str "yyyy-MM-dd HH:mm:ss")]),
         ("aggregations", .obj oneMetric)])] : msi) =
        [("date_histogram(field=ts,interval=1d)", .obj body)] ∧
      (oneMetric = [] → body = inner) ∧
      (oneMetric ≠ [] → body = msi.set inner "aggregations" (.obj oneMetric)) ∧
      (msi.get body "aggregations" = some (.obj oneMetric) ↔ oneMetric ≠ []) ∧
      msi.get inner "aggregations" = none ∧
      (∀ k, k ≠ "aggregations" → msi.get body k = msi.get inner k) := by
  have hok : handleGroupByFuncExpr sqlString dateHistoTs oneMetric =
      .ok [("date_histogram(field=ts,interval=1d)", .obj
        [("date_histogram", .obj [("field", .str "ts"), ("interval", .str "1d"),
            ("format", .str "yyyy-MM-dd HH:mm:ss")]),
         ("aggregations", .obj oneMetric)])] := rfl
  exact ⟨hok, handleGroupByFuncExpr_spec sqlString dateHistoTs oneMetric _ hok⟩

/-! ## The tree builder: single keys -/

/-- The `aggregations` child of a single-key mapping whose body holds one. -/
theorem aggChild_single (k : String) (body child : msi)
    (h : msi.get body "aggregations" = some (.obj child)) :
    aggChild [(k, .obj body)] = some child := by
  simp [aggChild, h]

/-- One more bucket around a chain keeps the invariant of the single-key property. -/
theorem chainInv_step (str : SQLNode → String) (g : GroupBy) (M : msi) (i : Nat)
    (hi : i < g.length) (k : String) (body child : msi)
    (hk : bucketKey str (g.get ⟨i, hi⟩) = k)
    (hagg : child ≠ [] → msi.get body "aggregations" = some (.obj child))
    (hinv : chainInv str g M (i + 1) child) :
    chainInv str g M i [(k, .obj body)] := by
  obtain ⟨hA, -, hB⟩ := hinv
  refine ⟨?_, Nat.le_of_lt hi, ?_⟩
  · intro j x hx
    cases j with
    | zero =>
      have hgi : g[i]? = some (g.get ⟨i, hi⟩) := List.getElem?_eq_getElem hi
      rw [Nat.add_zero, hgi] at hx
      cases hx
      exact ⟨body, by rw [hk]; rfl⟩
    | succ j =>
      have hx' : g[i + 1 + j]? = some x := by
        rw [show i + 1 + j = i + (j + 1) by omega]
        exact hx
      have hlt : i + (j + 1) < g.length := (List.getElem?_eq_some.1 hx).1
      have hi1 : i + 1 < g.length := by omega
      obtain ⟨b₀, hb₀⟩ := hA 0 (g.get ⟨i + 1, hi1⟩) (List.getElem?_eq_getElem hi1)
      have hne : child ≠ [] := by
        simp only [reach, Option.some.injEq] at hb₀
        rw [hb₀]
        simp
      obtain ⟨b, hb⟩ := hA j x hx'
      refine ⟨b, ?_⟩
      simp only [reach, aggChild_single k body child (hagg hne)]
      exact hb
  · intro hM
    obtain ⟨hne, hr⟩ := hB hM
    refine ⟨by simp, ?_⟩
    rw [show g.length - i = (g.length - (i + 1)) + 1 by omega]
    simp only [reach, aggChild_single k body child (hagg hne)]
    exact hr

/-- C16: for a non-empty GROUP BY list of column references and function calls on
which `handleGroupByAgg` succeeds, the tree has exactly one top-level key, and so
has the mapping reached from the root by following the `aggregations` child `j`
times for every `j` below the number of items, its key being the key of item `j`;
when `M` is not empty the next step reaches `M`. -/
theorem handleGroupByAgg_single_key (str : SQLNode → String) (g : GroupBy) (M t : msi)
    (hne : g ≠ []) (hg : ∀ e ∈ g, isBucketItem e = true)
    (h : handleGroupByAgg str g M = .ok t) :
    (∃ (k : String) (body : msi), t = [(k, .obj body)]) ∧
    (∀ (j : Nat) (hj : j < g.length), ∃ body : msi,
      reach j t = some [(bucketKey str (g.get ⟨j, hj⟩), .obj body)]) ∧
    (M ≠ [] → reach g.length t = some M) := by
  have hinv : chainInv str g M 0 t := by
    refine handleGroupByAgg.loop_invariant str g (chainInv str g M) ?_ ?_ ?_
      g.length (Nat.le_refl _) M t ?_ h
    · intro i hi c child hgi hc
      obtain ⟨body, hb, hagg, -, -⟩ := handleGroupByColName_shape c i child
      rw [hb]
      exact chainInv_step str g M i hi _ body child (by rw [hgi]; rfl) hagg hc
    · intro i hi f child t' hgi hc hok
      obtain ⟨body, hb, hagg, -, -⟩ := handleGroupByFuncExpr_shape str f child t' hok
      rw [hb]
      exact chainInv_step str g M i hi _ body child (by rw [hgi]) hagg hc
    · intro i hi child hb _
      have := hg _ (List.get_mem g i hi)
      rw [hb] at this
      cases this
    · refine ⟨?_, Nat.le_refl _, ?_⟩
      · intro j x hx
        have := (List.getElem?_eq_some.1 hx).1
        omega
      · intro hM
        exact ⟨hM, by simp [reach]⟩
  obtain ⟨hA, -, hB⟩ := hinv
  have hpos : 0 < g.length := List.length_pos.2 hne
  refine ⟨?_, ?_, ?_⟩
  · obtain ⟨body, hb⟩ := hA 0 (g.get ⟨0, hpos⟩) (List.getElem?_eq_getElem hpos)
    simp only [reach, Option.some.injEq] at hb
    exact ⟨_, body, hb⟩
  · intro j hj
    have := hA j (g.get ⟨j, hj⟩) (by rw [Nat.zero_add]; exact List.getElem?_eq_getElem hj)
    exact this
  · intro hM
    simpa using (hB hM).2

/-- The list `colA, colB` over one metric: the root has the single key `colA`, its
`aggregations` child the single key `colB`, and the next step reaches the metric. -/
theorem handleGroupByAgg_single_key_witness :
    groupByAB ≠ [] ∧ (∀ e ∈ groupByAB, isBucketItem e = true) ∧
    (∃ t, handleGroupByAgg sqlString groupByAB oneMetric = .ok t ∧
      (∃ (k : String) (body : msi), t = [(k, .obj body)]) ∧
      (∃ body : msi, reach 0 t = some [("colA", .obj body)]) ∧
      (∃ body : msi, reach 1 t = some [("colB", .obj body)]) ∧
      reach 2 t = some oneMetric) := by
  have h1 : groupByAB ≠ [] := by simp [groupByAB]
  have h2 : ∀ e ∈ groupByAB, isBucketItem e = true := by
    simp [groupByAB, col, isBucketItem]
  obtain ⟨t, ht⟩ : ∃ t, handleGroupByAgg sqlString groupByAB oneMetric = .ok t := ⟨_, rfl⟩
  obtain ⟨ha, hb, hc⟩ := handleGroupByAgg_single_key sqlString groupByAB oneMetric t h1 h2 ht
  exact ⟨h1, h2, t, ht, ha, hb 0 (by decide), hb 1 (by decide), hc (by simp [oneMetric])⟩

/-! ## The tree builder: bucket sizes -/

/-- No bucket is met from the empty mapping. -/
theorem spineBodies_nil (m : Nat) : spineBodies m [] = [] := by
  cases m <;> rfl

/-- The buckets met from a single-key mapping: its body, then those met from the
child. -/
theorem spineBodies_single (m : Nat) (k : String) (body child : msi)
    (h1 : child ≠ [] → msi.get body "aggregations" = some (.obj child))
    (h2 : child = [] → msi.get body "aggregations" = none) :
    spineBodies (m + 1) [(k, .obj body)] = body :: spineBodies m child := by
  cases child with
  | nil => simp [spineBodies, h2 rfl, spineBodies_nil]
  | cons p rest => simp [spineBodies, h1 (by simp)]

/-- The bucket items from `i` on: item `i`, when it is one, and those from `i + 1` on. -/
theorem countBuckets_drop (g : GroupBy) (i : Nat) (hi : i < g.length) :
    countBuckets (g.drop i) =
      countBuckets (g.drop (i + 1)) + (if isBucketItem (g.get ⟨i, hi⟩) = true then 1 else 0) := by
  have hdrop : g.drop i = g[i] :: g.drop (i + 1) := List.drop_eq_getElem_cons hi
  rw [hdrop]
  unfold countBuckets
  by_cases hb : isBucketItem g[i] = true
  · rw [List.filter_cons_of_pos hb]
    simp [hb, List.drop_eq_getElem_cons hi]
  · rw [List.filter_cons_of_neg hb]
    have hb' : isBucketItem g[i] = false := by simpa using hb
    simp [hb']

/-- One more bucket around the running child keeps the invariant of the sizes, when
the new bucket has no `terms` entry, or one of size 0, or one of size 200 at
index 0 for a column reference. -/
theorem sizeInv_step (g : GroupBy) (i : Nat) (hi : i < g.length) (k : String)
    (body child : msi) (hb : isBucketItem (g.get ⟨i, hi⟩) = true)
    (h1 : child ≠ [] → msi.get body "aggregations" = some (.obj child))
    (h2 : child = [] → msi.get body "aggregations" = none)
    (hsz : ∀ s, termsSizeOf body = some s →
      s = 0 ∨ (s = 200 ∧ i = 0 ∧ ∃ c₀, g[0]? = some (.colName c₀)))
    (hinv : sizeInv g (i + 1) child) :
    sizeInv g i [(k, .obj body)] := by
  obtain ⟨hlen, hent⟩ := hinv
  have hcnt : countBuckets (g.drop i) = countBuckets (g.drop (i + 1)) + 1 := by
    rw [countBuckets_drop g i hi, if_pos hb]
  unfold sizeInv
  rw [hcnt, spineBodies_single _ k body child h1 h2]
  refine ⟨by simp [hlen], ?_⟩
  intro j b s hj hs
  cases j with
  | zero =>
    simp only [List.getElem?_cons_zero, Option.some.injEq] at hj
    subst hj
    rcases hsz s hs with h0 | ⟨h200, hi0, hc⟩
    · exact Or.inl h0
    · exact Or.inr ⟨h200, hi0, rfl, hc⟩
  | succ j =>
    simp only [List.getElem?_cons_succ] at hj
    rcases hent j b s hj hs with h0 | ⟨-, hfalse, -⟩
    · exact Or.inl h0
    · omega

/-- An item that is no bucket item keeps the invariant of the sizes. -/
theorem sizeInv_skip (g : GroupBy) (i : Nat) (hi : i < g.length) (child : msi)
    (hb : isBucketItem (g.get ⟨i, hi⟩) = false) (hinv : sizeInv g (i + 1) child) :
    sizeInv g i child := by
  obtain ⟨hlen, hent⟩ := hinv
  have hcnt : countBuckets (g.drop i) = countBuckets (g.drop (i + 1)) := by
    rw [countBuckets_drop g i hi, hb]
    simp
  unfold sizeInv
  rw [hcnt]
  refine ⟨hlen, ?_⟩
  intro j b s hj hs
  rcases hent j b s hj hs with h0 | ⟨-, hfalse, -⟩
  · exact Or.inl h0
  · omega

/-- C19: in a tree returned by `handleGroupByAgg` there is one bucket per column
reference and function call of the GROUP BY list, met by following the
`aggregations` children from the root; a `terms` bucket among them has size 200
only if it is the root and the first item is a column reference, and size 0
otherwise, so at most one bucket is capped and none is when the first item is a
function call. -/
theorem handleGroupByAgg_terms_size (str : SQLNode → String) (g : GroupBy) (M t : msi)
    (h : handleGroupByAgg str g M = .ok t) :
    (spineBodies (countBuckets g) t).length = countBuckets g ∧
    (∀ (j : Nat) (body : msi) (s : Int),
      (spineBodies (countBuckets g) t)[j]? = some body → termsSizeOf body = some s →
      s = 0 ∨ (s = 200 ∧ j = 0 ∧ ∃ c₀, g[0]? = some (.colName c₀))) ∧
    (∀ (j j' : Nat) (body body' : msi),
      (spineBodies (countBuckets g) t)[j]? = some body →
      (spineBodies (countBuckets g) t)[j']? = some body' →
      termsSizeOf body = some 200 → termsSizeOf body' = some 200 → j = j') ∧
    ((∃ f, g[0]? = some (.funcExpr f)) →
      ∀ body ∈ spineBodies (countBuckets g) t, termsSizeOf body ≠ some 200) ∧
    (∀ (calls : List FuncExpr) (k : String) (body : msi),
      msi.get (handleFuncInSelectAgg str calls) k = some (.obj body) →
      termsSizeOf body = none) := by
  have hmetric : ∀ (calls : List FuncExpr) (k : String) (body : msi),
      msi.get (handleFuncInSelectAgg str calls) k = some (.obj body) →
      termsSizeOf body = none := by
    intro calls k body hget
    unfold handleFuncInSelectAgg at hget
    rw [handleFuncInSelectAgg.foldl_get] at hget
    cases hl : (calls.filter (fun v => decide (metricKey str v = k))).getLast? with
    | none => rw [hl] at hget; simp [msi.get] at hget
    | some v =>
      rw [hl] at hget
      simp only [Option.some.injEq] at hget
      unfold metricBody at hget
      by_cases h1 : v.Name = "count"
      · by_cases h2 : str (.selectExprs v.Exprs) = "*"
        · simp only [h1, h2, if_true, Value.obj.injEq] at hget
          subst hget
          simp [termsSizeOf, msi.get]
        · by_cases h3 : v.Distinct = true
          · simp only [h1, h2, h3, if_true, if_false, Value.obj.injEq] at hget
            subst hget
            simp [termsSizeOf, msi.get]
          · have h3' : v.Distinct = false := by simpa using h3
            simp only [h1, h2, h3', if_true, if_false, Value.obj.injEq] at hget
            simp only [Bool.false_eq_true, if_false, Value.obj.injEq] at hget
            subst hget
            simp [termsSizeOf, msi.get]
      · simp only [h1, if_false, Value.obj.injEq] at hget
        subst hget
        by_cases h4 : v.Name = "terms"
        · simp [termsSizeOf, msi.get, h4]
        · simp [termsSizeOf, msi.get, h4]
  have hinv : sizeInv g 0 t := by
    refine handleGroupByAgg.loop_invariant str g (sizeInv g) ?_ ?_ ?_
      g.length (Nat.le_refl _) M t ?_ h
    · intro i hi c child hgi hc
      obtain ⟨body, hb, h1, h2, hsz⟩ := handleGroupByColName_shape c i child
      rw [hb]
      refine sizeInv_step g i hi _ body child (by rw [hgi]; rfl) h1 h2 ?_ hc
      intro s hs
      rw [hsz] at hs
      by_cases hi0 : i = 0
      · subst hi0
        simp only [Nat.cast_zero, if_true, Option.some.injEq] at hs
        refine Or.inr ⟨hs.symm, rfl, c, ?_⟩
        rw [List.getElem?_eq_getElem hi]
        exact congrArg some hgi
      · have : ¬ ((i : Int) = 0) := by exact_mod_cast hi0
        simp only [this, if_false, Option.some.injEq] at hs
        exact Or.inl hs.symm
    · intro i hi f child t' hgi hc hok
      obtain ⟨body, hb, h1, h2, hterms⟩ := handleGroupByFuncExpr_shape str f child t' hok
      rw [hb]
      refine sizeInv_step g i hi _ body child (by rw [hgi]; rfl) h1 h2 ?_ hc
      intro s hs
      simp [termsSizeOf, hterms] at hs
    · intro i hi child hb hc
      exact sizeInv_skip g i hi child hb hc
    · unfold sizeInv
      rw [List.drop_length]
      simp [countBuckets, spineBodies]
  obtain ⟨hlen, hent⟩ := hinv
  rw [List.drop_zero] at hlen hent
  have hent' : ∀ (j : Nat) (body : msi) (s : Int),
      (spineBodies (countBuckets g) t)[j]? = some body → termsSizeOf body = some s →
      s = 0 ∨ (s = 200 ∧ j = 0 ∧ ∃ c₀, g[0]? = some (.colName c₀)) := by
    intro j body s hj hs
    rcases hent j body s hj hs with h0 | ⟨h200, -, hj0, hc⟩
    · exact Or.inl h0
    · exact Or.inr ⟨h200, hj0, hc⟩
  refine ⟨hlen, hent', ?_, ?_, hmetric⟩
  · intro j j' body body' hj hj' hs hs'
    rcases hent' j body 200 hj hs with h0 | ⟨-, hj0, -⟩
    · cases h0
    · rcases hent' j' body' 200 hj' hs' with h0 | ⟨-, hj0', -⟩
      · cases h0
      · rw [hj0, hj0']
  · rintro ⟨f, hf⟩ body hbody hs
    obtain ⟨j, hj⟩ := List.getElem?_of_mem hbody
    rcases hent' j body 200 hj hs with h0 | ⟨-, -, c₀, hc⟩
    · cases h0
    · rw [hf] at hc
      cases hc

/-- The lists `colA, colB` and `range(price, 0, 10, 20), colA`: the first tree has
one capped bucket, the root, and the second has two buckets, none of them capped. -/
theorem handleGroupByAgg_terms_size_witness :
    (∃ t, handleGroupByAgg sqlString groupByAB oneMetric = .ok t ∧
      (spineBodies (countBuckets groupByAB) t).map termsSizeOf = [some 200, some 0]) ∧
    (∃ t, handleGroupByAgg sqlString groupByRangeFirst oneMetric = .ok t ∧
      (spineBodies (countBuckets groupByRangeFirst) t).length = 2 ∧
      ∀ body ∈ spineBodies (countBuckets groupByRangeFirst) t, termsSizeOf body ≠ some 200) := by
  refine ⟨⟨_, rfl, rfl⟩, ?_⟩
  have hnone : lastFailure sqlString groupByRangeFirst = none := rfl
  have hloop := handleGroupByAgg.loop_failure sqlString groupByRangeFirst
    groupByRangeFirst.length (Nat.le_refl _) oneMetric
  rw [List.take_length] at hloop
  obtain ⟨t, ht⟩ := hloop.2 hnone
  have hthm := handleGroupByAgg_terms_size sqlString groupByRangeFirst oneMetric t ht
  exact ⟨t, ht, hthm.1, hthm.2.2.2.1 ⟨rangePrice, rfl⟩⟩

/-! ## The serialisation -/

/-- The entries with encoded values, as a map over the list. -/
theorem json.encodeFields_eq_map (enc : String → String) (m : msi) :
    json.encodeFields enc m = m.map (fun p => (p.1, json.encode enc p.2)) := by
  induction m with
  | nil => simp [json.encodeFields]
  | cons p rest ih =>
    obtain ⟨k, v⟩ := p
    simp [json.encodeFields, ih]

/-- The sort of the fields is the insertion sort by key. -/
theorem json.sortFields_eq_insertionSort (l : List (String × String)) :
    json.sortFields l = List.insertionSort (fun p q : String × String => p.1 ≤ q.1) l := by
  have hins : ∀ (f : String × String) (l : List (String × String)),
      json.insertField f l = List.orderedInsert (fun p q : String × String => p.1 ≤ q.1) f l := by
    intro f l
    induction l with
    | nil => rfl
    | cons g rest ih => simp only [json.insertField, List.orderedInsert, ih]
  induction l with
  | nil => rfl
  | cons f rest ih => simp only [json.sortFields, List.insertionSort, ih, hins]

/-- In a map with distinct keys, an entry is in the list exactly when the read of
its key gives its value. -/
theorem msi.mem_iff_get (m : msi) (h : (msi.keys m).Nodup) (k : String) (v : Value) :
    (k, v) ∈ m ↔ msi.get m k = some v := by
  induction m with
  | nil => simp [msi.get]
  | cons p rest ih =>
    obtain ⟨k', v'⟩ := p
    have hnd : k' ∉ msi.keys rest ∧ (msi.keys rest).Nodup := by
      simpa [msi.keys] using h
    by_cases hk : k' = k
    · subst hk
      have hnot : (k', v) ∉ rest := fun hm => hnd.1 (List.mem_map.2 ⟨_, hm, rfl⟩)
      simp only [List.mem_cons, msi.get, if_true, Option.some.injEq, Prod.mk.injEq, true_and]
      constructor
      · rintro (h' | h')
        · exact h'.symm
        · exact absurd h' hnot
      · intro h'
        exact Or.inl h'.symm
    · have hne : ¬ (k = k') := fun e => hk e.symm
      simp only [List.mem_cons, msi.get, hk, if_false, Prod.mk.injEq, hne, false_and, false_or]
      exact ih hnd.2

/-- Two lists of fields with distinct keys and the same members have the same sort. -/
theorem json.sortFields_ext (l₁ l₂ : List (String × String))
    (h₁ : (l₁.map Prod.fst).Nodup) (h₂ : (l₂.map Prod.fst).Nodup)
    (h : ∀ x, x ∈ l₁ ↔ x ∈ l₂) :
    json.sortFields l₁ = json.sortFields l₂ := by
  have hperm : List.Perm l₁ l₂ :=
    (List.perm_ext_iff_of_nodup (List.Nodup.of_map _ h₁) (List.Nodup.of_map _ h₂)).2 h
  rw [json.sortFields_eq_insertionSort, json.sortFields_eq_insertionSort]
  haveI : IsTotal (String × String) (fun p q => p.1 ≤ q.1) := ⟨fun a b => le_total a.1 b.1⟩
  haveI : IsTrans (String × String) (fun p q => p.1 ≤ q.1) :=
    ⟨fun a b c hab hbc => le_trans hab hbc⟩
  haveI : IsAntisymm (String × String) (fun p q => p.1 < q.1) :=
    ⟨fun a b hab hba => absurd hab (not_lt_of_gt hba)⟩
  have hstrict : ∀ l : List (String × String), (l.map Prod.fst).Nodup →
      List.Sorted (fun p q : String × String => p.1 < q.1)
        (List.insertionSort (fun p q : String × String => p.1 ≤ q.1) l) := by
    intro l hl
    have hs := List.sorted_insertionSort (fun p q : String × String => p.1 ≤ q.1) l
    have hp := List.perm_insertionSort (fun p q : String × String => p.1 ≤ q.1) l
    have hnd : ((List.insertionSort (fun p q : String × String => p.1 ≤ q.1) l).map
        Prod.fst).Nodup := (hp.map Prod.fst).nodup_iff.2 hl
    have hne : List.Pairwise (fun p q : String × String => p.1 ≠ q.1)
        (List.insertionSort (fun p q : String × String => p.1 ≤ q.1) l) := by
      unfold List.Nodup at hnd
      rwa [List.pairwise_map] at hnd
    exact (List.Pairwise.and hs hne).imp (fun hab => lt_of_le_of_ne hab.1 hab.2)
  refine List.eq_of_perm_of_sorted ?_ (hstrict l₁ h₁) (hstrict l₂ h₂)
  exact ((List.perm_insertionSort _ l₁).trans hperm).trans (List.perm_insertionSort _ l₂).symm

/-- Two mappings with the same keys and, under every key, values of the same
serialisation have the same `json.Marshal`. -/
theorem json.Marshal_congr (enc : String → String) (m₁ m₂ : msi)
    (h₁ : (msi.keys m₁).Nodup) (h₂ : (msi.keys m₂).Nodup)
    (h : ∀ k, (msi.get m₁ k).map (json.encode enc) = (msi.get m₂ k).map (json.encode enc)) :
    json.Marshal enc m₁ = json.Marshal enc m₂ := by
  have hmem : ∀ (m : msi), (msi.keys m).Nodup → ∀ (k s : String),
      (k, s) ∈ m.map (fun p => (p.1, json.encode enc p.2)) ↔
        (msi.get m k).map (json.encode enc) = some s := by
    intro m hm k s
    constructor
    · intro hx
      obtain ⟨p, hp, hps⟩ := List.mem_map.1 hx
      obtain ⟨k', v⟩ := p
      simp only [Prod.mk.injEq] at hps
      obtain ⟨rfl, rfl⟩ := hps
      rw [(msi.mem_iff_get m hm k' v).1 hp]
      rfl
    · intro hx
      cases hg : msi.get m k with
      | none => rw [hg] at hx; cases hx
      | some v =>
        rw [hg] at hx
        simp only [Option.map_some', Option.some.injEq] at hx
        exact List.mem_map.2 ⟨(k, v), (msi.mem_iff_get m hm k v).2 hg, by rw [← hx]⟩
  have hkeys : ∀ m : msi, (m.map (fun p => (p.1, json.encode enc p.2))).map Prod.fst =
      msi.keys m := by
    intro m
    simp [msi.keys, List.map_map, Function.comp_def]
  have hsort : json.sortFields (json.encodeFields enc m₁) =
      json.sortFields (json.encodeFields enc m₂) := by
    rw [json.encodeFields_eq_map, json.encodeFields_eq_map]
    apply json.sortFields_ext
    · rw [hkeys]; exact h₁
    · rw [hkeys]; exact h₂
    · rintro ⟨k, s⟩
      rw [hmem m₁ h₁, hmem m₂ h₂, h k]
  simp only [json.Marshal, json.encode, hsort]

/-- The encodings of the maps of a slice, as a map over the slice. -/
theorem json.encodeMaps_eq_map (enc : String → String) (l : List msi) :
    json.encodeMaps enc l = l.map (fun m => json.encode enc (.obj m)) := by
  induction l with
  | nil => simp [json.encodeMaps]
  | cons m rest ih => simp [json.encodeMaps, json.encode, ih]

/-- The exchange of two neighbouring entries of a mapping with distinct keys does
not change its encoding. -/
theorem json.encode_swap (enc : String → String) (pre post : msi) (p q : String × Value)
    (h : (msi.keys (pre ++ p :: q :: post)).Nodup) :
    json.encode enc (.obj (pre ++ p :: q :: post)) =
      json.encode enc (.obj (pre ++ q :: p :: post)) := by
  have hperm : List.Perm (pre ++ p :: q :: post) (pre ++ q :: p :: post) :=
    List.Perm.append_left pre (List.Perm.swap q p post)
  have hkeys : ∀ m : msi, (m.map (fun x => (x.1, json.encode enc x.2))).map Prod.fst =
      msi.keys m := by
    intro m
    simp [msi.keys, List.map_map, Function.comp_def]
  have hsort : json.sortFields (json.encodeFields enc (pre ++ p :: q :: post)) =
      json.sortFields (json.encodeFields enc (pre ++ q :: p :: post)) := by
    rw [json.encodeFields_eq_map, json.encodeFields_eq_map]
    apply json.sortFields_ext
    · rw [hkeys]; exact h
    · rw [hkeys]
      exact ((hperm.map Prod.fst).nodup_iff).1 h
    · intro x
      exact (hperm.map _).mem_iff
  simp only [json.encode, hsort]

/-- Two trees that differ in the order of the entries of their mappings only have the
same encoding. -/
theorem json.encode_reorder (enc : String → String) (v w : Value) (h : Reorder v w) :
    json.encode enc v = json.encode enc w := by
  induction h with
  | refl v => rfl
  | trans _ _ ih₁ ih₂ => exact ih₁.trans ih₂
  | swap pre post p q hnd => exact json.encode_swap enc pre post p q hnd
  | field pre post k _ ih =>
    simp only [json.encode, json.encodeFields_eq_map, List.map_append, List.map_cons, ih]
  | item pre post _ ih =>
    simp only [json.encode] at ih
    simp only [json.encode, json.encodeMaps_eq_map, List.map_append, List.map_cons, ih]

/-- C17: the serialised form of a tree depends only on the keys and values of the
tree, not on the order in which the keys of its mappings were inserted, at any
depth; so every tree that holds the keys and values of the tree built for a
statement, whatever the order of its entries, serialises to the string that
`buildAggs` returns for the statement, and two runs return the same string. -/
theorem buildAggs_stable (str : SQLNode → String) (enc : String → String) :
    (∀ v w : Value, Reorder v w → json.encode enc v = json.encode enc w) ∧
    (∀ (sel : Select) (t t' : msi),
      handleGroupByAgg str sel.GroupBy
        (handleFuncInSelectAgg str (extractFuncAndColFromSelect sel.SelectExprs).1) = .ok t →
      Reorder (.obj t) (.obj t') →
      buildAggs str enc sel = (json.Marshal enc t', none)) ∧
    (∀ (sel : Select) (t t₁ t₂ : msi),
      handleGroupByAgg str sel.GroupBy
        (handleFuncInSelectAgg str (extractFuncAndColFromSelect sel.SelectExprs).1) = .ok t →
      Reorder (.obj t) (.obj t₁) → Reorder (.obj t) (.obj t₂) →
      json.Marshal enc t₁ = json.Marshal enc t₂) := by
  have hb : ∀ (sel : Select) (t t' : msi),
      handleGroupByAgg str sel.GroupBy
        (handleFuncInSelectAgg str (extractFuncAndColFromSelect sel.SelectExprs).1) = .ok t →
      Reorder (.obj t) (.obj t') →
      buildAggs str enc sel = (json.Marshal enc t', none) := by
    intro sel t t' ht hr
    simp only [buildAggs, ht, json.Marshal]
    rw [json.encode_reorder enc _ _ hr]
  refine ⟨json.encode_reorder enc, hb, ?_⟩
  intro sel t t₁ t₂ ht h₁ h₂
  have e₁ := hb sel t t₁ ht h₁
  have e₂ := hb sel t t₂ ht h₂
  rw [e₁] at e₂
  exact congrArg Prod.fst e₂

/-- The statement `selectMixed`: the tree with the two metrics, and `terms` and
`aggregations` of the outer bucket, in the opposite order serialises to the string
`buildAggs` returns. -/
theorem buildAggs_stable_witness :
    handleGroupByAgg sqlString selectMixed.GroupBy
      (handleFuncInSelectAgg sqlString
        (extractFuncAndColFromSelect selectMixed.SelectExprs).1) = .ok treeMixed ∧
    Reorder (.obj treeMixed) (.obj treeMixedReordered) ∧
    buildAggs sqlString json.quote selectMixed =
      (json.Marshal json.quote treeMixedReordered, none) := by
  have ht : handleGroupByAgg sqlString selectMixed.GroupBy
      (handleFuncInSelectAgg sqlString
        (extractFuncAndColFromSelect selectMixed.SelectExprs).1) = .ok treeMixed := rfl
  have hr : Reorder (.obj treeMixed) (.obj treeMixedReordered) := by
    refine Reorder.trans
      (b := .obj [("colA", .obj
        [("terms", .obj [("field", .str "colA"), ("size", .num 200)]),
         ("aggregations", .obj [("colB", .obj
            [("terms", .obj [("field", .str "colB"), ("size", .num 0)]),
             ("aggregations", .obj
                [("COUNT(*)", .obj [("value_count", .obj [("field", .str "_index")])]),
                 ("AVG(price)", .obj [("avg", .obj [("field", .str "price")])])])])])])])
      ?_ ?_
    · exact Reorder.field [] [] "colA"
        (Reorder.field [("terms", .obj [("field", .str "colA"), ("size", .num 200)])] []
          "aggregations"
          (Reorder.field [] [] "colB"
            (Reorder.field [("terms", .obj [("field", .str "colB"), ("size", .num 0)])] []
              "aggregations"
              (Reorder.swap [] []
                ("AVG(price)", .obj [("avg", .obj [("field", .str "price")])])
                ("COUNT(*)", .obj [("value_count", .obj [("field", .str "_index")])])
                (by decide)))))
    · exact Reorder.field [] [] "colA"
        (Reorder.swap [] []
          ("terms", .obj [("field", .str "colA"), ("size", .num 200)])
          ("aggregations", .obj [("colB", .obj
            [("terms", .obj [("field", .str "colB"), ("size", .num 0)]),
             ("aggregations", .obj
                [("COUNT(*)", .obj [("value_count", .obj [("field", .str "_index")])]),
                 ("AVG(price)", .obj [("avg", .obj [("field", .str "price")])])])])])
          (by decide))
  exact ⟨ht, hr, (buildAggs_stable sqlString json.quote).2.1 selectMixed treeMixed
    treeMixedReordered ht hr⟩

/-! ## The metric compiler: shared keys -/

/-- The text between the same two texts is determined by the whole. -/
theorem String.append_cancel_mid (p x y s : String) (h : p ++ x ++ s = p ++ y ++ s) :
    x = y := by
  have hd := congrArg String.data h
  simp only [String.data_append] at hd
  have hd' : x.data = y.data :=
    List.append_cancel_left (List.append_cancel_right hd)
  exact String.ext hd'

/-- C18, as stated, fails: `count(price)` and `count(distinct price)` share the key
`COUNT(price)` with the bodies `value_count` and `cardinality`, and `avg(price)` and
`AVG(price)` share the key `AVG(price)` with the operators `avg` and `AVG`; the
second call of a list overwrites the body of the first. -/
theorem metricKey_collision :
    handleFuncInSelectAgg sqlString [countPrice] =
      [("COUNT(price)", .obj [("value_count", .obj [("field", .str "price")])])] ∧
    handleFuncInSelectAgg sqlString [countDistinctPrice] =
      [("COUNT(price)", .obj [("cardinality", .obj [("field", .str "price")])])] ∧
    handleFuncInSelectAgg sqlString [countPrice, countDistinctPrice] =
      [("COUNT(price)", .obj [("cardinality", .obj [("field", .str "price")])])] ∧
    handleFuncInSelectAgg sqlString [avgPrice] =
      [("AVG(price)", .obj [("avg", .obj [("field", .str "price")])])] ∧
    handleFuncInSelectAgg sqlString [avgPriceUpper] =
      [("AVG(price)", .obj [("AVG", .obj [("field", .str "price")])])] ∧
    ¬ (∀ a b : FuncExpr, metricKey sqlString a = metricKey sqlString b →
        metricBody sqlString a = metricBody sqlString b) := by
  refine ⟨rfl, rfl, rfl, rfl, rfl, ?_⟩
  intro h
  have hb := h countPrice countDistinctPrice rfl
  have h1 : metricBody sqlString countPrice =
      .obj [("value_count", .obj [("field", .str "price")])] := rfl
  have h2 : metricBody sqlString countDistinctPrice =
      .obj [("cardinality", .obj [("field", .str "price")])] := rfl
  rw [h1, h2] at hb
  simp at hb

/-- C18, amended: two aggregate calls with the same name as written that are
assigned the same metric key compile to the same metric body, provided their
distinct flags are equal in the one case where the flag is read, `count` over an
argument list that does not print as `*`; an overwrite under their key then does
not change the stored body. -/
theorem metricBody_eq_of_key (str : SQLNode → String) (a b : FuncExpr)
    (hname : a.Name = b.Name)
    (hdist : a.Name = "count" → str (.selectExprs a.Exprs) ≠ "*" → a.Distinct = b.Distinct)
    (hkey : metricKey str a = metricKey str b) :
    metricBody str a = metricBody str b ∧
    (∀ m : msi, handleFuncInSelectAgg.step str (handleFuncInSelectAgg.step str m a) b =
      handleFuncInSelectAgg.step str m a) := by
  have hargs : str (.selectExprs a.Exprs) = str (.selectExprs b.Exprs) := by
    unfold metricKey at hkey
    rw [hname] at hkey
    exact String.append_cancel_mid _ _ _ _ hkey
  have hbody : metricBody str a = metricBody str b := by
    unfold metricBody
    rw [← hname, ← hargs]
    by_cases h1 : a.Name = "count"
    · by_cases h2 : str (.selectExprs a.Exprs) = "*"
      · simp [h1, h2]
      · rw [← hdist h1 h2]
    · simp [h1]
  refine ⟨hbody, ?_⟩
  intro m
  rw [handleFuncInSelectAgg.step_eq, handleFuncInSelectAgg.step_eq, ← hkey, ← hbody,
    msi.set_set]

/-- The calls `avg(price)` and `avg(distinct price)`, and `count(*)` and
`count(distinct *)`, differ in the distinct flag, share name and key, and compile
to the same body. -/
theorem metricBody_eq_of_key_witness :
    (avgPrice.Distinct ≠ avgDistinctPrice.Distinct ∧
      avgPrice.Name = avgDistinctPrice.Name ∧
      metricKey sqlString avgPrice = metricKey sqlString avgDistinctPrice ∧
      metricBody sqlString avgPrice = metricBody sqlString avgDistinctPrice ∧
      metricBody sqlString avgDistinctPrice = .obj [("avg", .obj [("field", .str "price")])]) ∧
    (countStar.Distinct ≠ countDistinctStar.Distinct ∧
      metricKey sqlString countStar = metricKey sqlString countDistinctStar ∧
      metricBody sqlString countStar = metricBody sqlString countDistinctStar ∧
      metricBody sqlString countDistinctStar =
        .obj [("value_count", .obj [("field", .str "_index")])]) :=
  ⟨⟨by decide, rfl, rfl,
      (metricBody_eq_of_key sqlString avgPrice avgDistinctPrice rfl
        (fun h => absurd h (by decide)) rfl).1, rfl⟩,
    ⟨by decide, rfl,
      (metricBody_eq_of_key sqlString countStar countDistinctStar rfl
        (fun _ h => absurd rfl h) rfl).1, rfl⟩⟩

/-! ## The tree builder: items of another kind -/

/-- The positions of a concatenation: those of the second list start after the
first. -/
theorem withIndex_append (l₁ l₂ : List Expr) :
    ∀ start : Nat, withIndex start (l₁ ++ l₂) =
      withIndex start l₁ ++ withIndex (start + l₁.length) l₂ := by
  induction l₁ with
  | nil => intro start; simp [withIndex]
  | cons e rest ih =>
    intro start
    show (start, e) :: withIndex (start + 1) (rest ++ l₂) =
      (start, e) :: withIndex (start + 1) rest ++ withIndex (start + (rest.length + 1)) l₂
    rw [ih (start + 1), show start + 1 + rest.length = start + (rest.length + 1) by omega]
    rfl

/-- The tree of a list with one more item at the end: that item is compiled first. -/
theorem compileIndexed_append_single (str : SQLNode → String) (i : Nat) (e : Expr) (M : msi) :
    ∀ l : List (Nat × Expr), compileIndexed str (l ++ [(i, e)]) M =
      match compileItem str i e M with
      | .error err => .error err
      | .ok c => compileIndexed str l c := by
  intro l
  induction l with
  | nil =>
    simp only [List.nil_append, compileIndexed]
    cases compileItem str i e M <;> rfl
  | cons p rest ih =>
    obtain ⟨j, x⟩ := p
    show (match compileIndexed str (rest ++ [(i, e)]) M with
      | Except.error err => Except.error err
      | Except.ok child => compileItem str j x child) = _
    rw [ih]
    cases compileItem str i e M <;> rfl

/-- The loop of `handleGroupByAgg` from the counter `n` builds the tree of the first
`n` items at their positions. -/
theorem handleGroupByAgg.loop_eq_compileIndexed (str : SQLNode → String) (g : GroupBy) :
    ∀ (n : Nat) (h : n ≤ g.length) (child : msi),
      handleGroupByAgg.loop str g n h child =
        compileIndexed str (withIndex 0 (g.take n)) child := by
  intro n
  induction n with
  | zero => intro h child; rfl
  | succ i ih =>
    intro h child
    have hi : i < g.length := h
    have htake : g.take (i + 1) = g.take i ++ [g[i]] := by
      rw [List.take_succ]
      simp [List.getElem?_eq_getElem hi]
    have hlen : (g.take i).length = i := by
      rw [List.length_take]
      omega
    rw [htake, withIndex_append, hlen, Nat.zero_add]
    simp only [withIndex]
    rw [compileIndexed_append_single, handleGroupByAgg.loop]
    split
    · rename_i item heq
      rw [heq]
      simp only [compileItem]
      exact ih _ _
    · rename_i item heq
      rw [heq]
      simp only [compileItem]
      cases handleGroupByFuncExpr str item child with
      | error err => rfl
      | ok currentMap => exact ih _ _
    · rename_i hc hf
      cases hgi : g[i] with
      | colName c => exact absurd hgi (hc c)
      | funcExpr f => exact absurd hgi (hf f)
      | comparisonExpr op l r => simp only [compileItem]; exact ih _ _
      | strVal v => simp only [compileItem]; exact ih _ _
      | numVal v => simp only [compileItem]; exact ih _ _
      | nullVal => simp only [compileItem]; exact ih _ _

/-- Items that are no bucket items do not count in the tree of a list of items
given with their positions. -/
theorem compileIndexed_bucketItems (str : SQLNode → String) (M : msi) :
    ∀ l : List (Nat × Expr),
      compileIndexed str (bucketItems l) M = compileIndexed str l M := by
  intro l
  induction l with
  | nil => rfl
  | cons p rest ih =>
    obtain ⟨i, e⟩ := p
    by_cases hb : isBucketItem e = true
    · have : bucketItems ((i, e) :: rest) = (i, e) :: bucketItems rest := by
        simp [bucketItems, hb]
      rw [this]
      simp only [compileIndexed, ih]
    · have hfilter : bucketItems ((i, e) :: rest) = bucketItems rest := by
        simp [bucketItems, hb]
      rw [hfilter, ih]
      simp only [compileIndexed]
      cases hr : compileIndexed str rest M with
      | error err => rfl
      | ok child =>
        cases e with
        | colName c => simp [isBucketItem] at hb
        | funcExpr f => simp [isBucketItem] at hb
        | comparisonExpr op l r => rfl
        | strVal v => rfl
        | numVal v => rfl
        | nullVal => rfl

/-- C20: `handleGroupByAgg g M` is the tree of the column references and function
calls of `g` alone, each compiled at the position it has in `g`: an item of
another kind adds no bucket and causes no failure, in any list, and the items
after it keep the positions they have with it, so that a column after it is not
at position 0.  For a list without column reference and function call the result
is `M` and no error. -/
theorem handleGroupByAgg_skips (str : SQLNode → String) (g : GroupBy) (M : msi) :
    handleGroupByAgg str g M = compileIndexed str (bucketItems (withIndex 0 g)) M ∧
    ((∀ e ∈ g, isBucketItem e = false) → handleGroupByAgg str g M = .ok M) ∧
    (∀ (pre post : GroupBy) (e : Expr), g = pre ++ e :: post → isBucketItem e = false →
      handleGroupByAgg str g M =
        compileIndexed str
          (bucketItems (withIndex 0 pre) ++ bucketItems (withIndex (pre.length + 1) post)) M) ∧
    (∀ (e : Expr) (c : ColName), isBucketItem e = false →
      handleGroupByAgg str [e, .colName c] M = .ok (handleGroupByColName c 1 M)) := by
  have hgen : ∀ g' : GroupBy,
      handleGroupByAgg str g' M = compileIndexed str (bucketItems (withIndex 0 g')) M := by
    intro g'
    rw [compileIndexed_bucketItems]
    have := handleGroupByAgg.loop_eq_compileIndexed str g' g'.length (Nat.le_refl _) M
    rwa [List.take_length] at this
  refine ⟨hgen g, ?_, ?_, ?_⟩
  · intro hg
    rw [hgen g]
    have hnil : bucketItems (withIndex 0 g) = [] := by
      unfold bucketItems
      rw [List.filter_eq_nil_iff]
      rintro ⟨i, e⟩ hmem
      have hmem' : ∀ (l : List Expr) (s : Nat), (i, e) ∈ withIndex s l → e ∈ l := by
        intro l
        induction l with
        | nil => intro s h; simp [withIndex] at h
        | cons x rest ih =>
          intro s h
          simp only [withIndex, List.mem_cons, Prod.mk.injEq] at h
          rcases h with ⟨-, rfl⟩ | h
          · exact List.mem_cons_self _ _
          · exact List.mem_cons_of_mem _ (ih _ h)
      simp [hg e (hmem' g 0 hmem)]
    rw [hnil]
    rfl
  · intro pre post e hg he
    rw [hgen g, hg, withIndex_append]
    have hsplit : bucketItems (withIndex 0 pre ++ withIndex (0 + pre.length) (e :: post)) =
        bucketItems (withIndex 0 pre) ++ bucketItems (withIndex (pre.length + 1) post) := by
      simp [bucketItems, withIndex, he]
    rw [hsplit]
  · intro e c he
    rw [hgen [e, .colName c]]
    have : bucketItems (withIndex 0 [e, .colName c]) = [(1, .colName c)] := by
      have hc : isBucketItem (.colName c) = true := rfl
      simp only [bucketItems, withIndex]
      rw [List.filter_cons_of_neg (by simp [he]), List.filter_cons_of_pos (by simp [hc])]
      rfl
    rw [this]
    rfl

/-- The lists `1, 'x'`, `1, 2, colA` and `colA, 1, colB`: the first leaves the
metric mapping as it is, the second compiles `colA` alone, at position 2 and so
with size 0, the third `colA` at position 0 over `colB` at position 2. -/
theorem handleGroupByAgg_skips_witness :
    handleGroupByAgg sqlString groupByLiterals oneMetric = .ok oneMetric ∧
    handleGroupByAgg sqlString groupByLiteralsThenCol oneMetric =
      .ok [("colA", .obj [("terms", .obj [("field", .str "colA"), ("size", .num 0)]),
                          ("aggregations", .obj oneMetric)])] ∧
    handleGroupByAgg sqlString groupByColLiteralCol oneMetric =
      .ok [("colA", .obj
        [("terms", .obj [("field", .str "colA"), ("size", .num 200)]),
         ("aggregations", .obj [("colB", .obj
            [("terms", .obj [("field", .str "colB"), ("size", .num 0)]),
             ("aggregations", .obj oneMetric)])])])] ∧
    bucketItems (withIndex 0 groupByColLiteralCol) = [(0, col "colA"), (2, col "colB")] := by
  refine ⟨?_, ?_, ?_, rfl⟩
  · exact (handleGroupByAgg_skips sqlString groupByLiterals oneMetric).2.1
      (by simp [groupByLiterals, isBucketItem])
  · exact ((handleGroupByAgg_skips sqlString groupByLiteralsThenCol oneMetric).1).trans rfl
  · exact ((handleGroupByAgg_skips sqlString groupByColLiteralCol oneMetric).1).trans rfl

/-! ## The function bucket compiler: `date_histogram`, names other than the keys -/

/-- A sub-expression that gives no value for a key does not change the value of
the key. -/
theorem lastValue_skip (str : SQLNode → String) (key dflt : String) (pre post : List SelectExpr)
    (e : SelectExpr) (h : rhsFor str key e = none) :
    lastValue str key dflt (pre ++ e :: post) = lastValue str key dflt (pre ++ post) := by
  unfold lastValue
  rw [List.filterMap_append, List.filterMap_cons, h, List.filterMap_append]

/-- A comparison whose left name is none of `field`, `interval`, `format` is
accepted and ignored: among other accepted sub-expressions it does not change the
body that `handleGroupByFuncExprDateHisto` returns. -/
theorem handleGroupByFuncExprDateHisto_ignores (str : SQLNode → String) (n : String) (d : Bool)
    (pre post : List SelectExpr) (op : String) (left : ColName) (right : Expr)
    (a : Option String)
    (h1 : left.Name ≠ "field") (h2 : left.Name ≠ "interval") (h3 : left.Name ≠ "format")
    (hne : pre ++ post ≠ []) (hall : ∀ e ∈ pre ++ post, leftIsColName e = true) :
    handleGroupByFuncExprDateHisto str
        (.mk n d (pre ++ .nonStarExpr (.comparisonExpr op (.colName left) right) a :: post)) =
      handleGroupByFuncExprDateHisto str (.mk n d (pre ++ post)) := by
  have hrhs : ∀ key, left.Name ≠ key →
      rhsFor str key (.nonStarExpr (.comparisonExpr op (.colName left) right) a) = none := by
    intro key hk
    simp [rhsFor, hk]
  have hall' : ∀ e ∈ pre ++ .nonStarExpr (.comparisonExpr op (.colName left) right) a :: post,
      leftIsColName e = true := by
    intro e he
    rw [List.mem_append, List.mem_cons] at he
    rcases he with he | rfl | he
    · exact hall e (List.mem_append_left _ he)
    · rfl
    · exact hall e (List.mem_append_right _ he)
  rw [handleGroupByFuncExprDateHisto_nonempty str
      (.mk n d (pre ++ .nonStarExpr (.comparisonExpr op (.colName left) right) a :: post))
      (by simp [FuncExpr.Exprs]) hall',
    handleGroupByFuncExprDateHisto_nonempty str (.mk n d (pre ++ post)) hne hall]
  simp only [FuncExpr.Exprs, lastValue_skip str _ _ pre post _ (hrhs _ h1),
    lastValue_skip str _ _ pre post _ (hrhs _ h2), lastValue_skip str _ _ pre post _ (hrhs _ h3)]

/-- The call `date_histogram(field = ts, foo = bar, interval = 1d)` compiles as
`date_histogram(field = ts, interval = 1d)` does. -/
theorem handleGroupByFuncExprDateHisto_ignores_witness :
    handleGroupByFuncExprDateHisto sqlString dateHistoForeign =
      handleGroupByFuncExprDateHisto sqlString dateHistoTs :=
  handleGroupByFuncExprDateHisto_ignores sqlString "date_histogram" false
    [arg (.comparisonExpr "=" (col "field") (col "ts"))]
    [arg (.comparisonExpr "=" (col "interval") (.strVal "1d"))]
    "=" ⟨"foo", none⟩ (col "bar") none (by decide) (by decide) (by decide) (by simp)
    (by simp [arg, col, leftIsColName])

end elasticsql
